import Mathlib

/- Verification of the command-construction and post-download reconciliation
logic of `src/youtube-download-gui.py` (yt-dlp GUI).

The pure logic of the program is embedded shallowly:
  * Python strings are Lean `String`s; `str.strip()` is `pyStrip`,
    `str.lower()` is `pyLower` (ASCII model), `str.replace("p","")` of the
    height buckets is `removePChars` (single-character pattern, so it deletes
    every `p`), `os.path.splitext` is `splitext`, `os.path.join` (with a
    relative second component) is `ospath_join`.
  * The Tk variables read by `build_command_for_url` become the fields of
    `Request`; the ambient filesystem facts it consults (existence of the
    generated cookie file, availability of ffmpeg) become `Env`.
  * The filesystem operations of the reconciler become the oracle `FS`:
    each fallible primitive (`os.listdir`, `os.path.getmtime`,
    `os.path.getsize`, `os.remove`, `os.rename`) either yields a value or
    raises, and the raising operations are threaded through `Except Unit`
    exactly where the Python code would propagate the exception;
    `try/except` blocks become `pyCatch`.  `safe_rename_media` also returns
    the list of completed filesystem actions, so that "no operation was
    performed" and "the stale target was removed before the rename" are
    statable.
  * Timestamps and sizes are integers.  The matched percent group's numeral
    is read as its exact rational value (`groupValue`), and the `float(...)`
    conversion on top of it is modelled faithfully as IEEE-754 binary64
    round-to-nearest-even (`roundFloat`, composed in `extract_percent_float`).
  * The regular expression `(\d{1,3}(?:\.\d+)?)%` searched by `re.search`
    is rendered as an explicit leftmost backtracking matcher (`searchGroup`):
    positions are tried left to right, `\d{1,3}` greedily from three digits
    down to one, the optional fraction greedily before its omission.
-/

namespace YtGui

/-! ## String helpers modelling the Python primitives -/

/-- Python `str.strip()` (whitespace from both ends). -/
def pyStrip (s : String) : String :=
  ⟨((s.data.dropWhile Char.isWhitespace).reverse.dropWhile Char.isWhitespace).reverse⟩

/-- Python `str.lower()` (ASCII model). -/
def pyLower (s : String) : String := ⟨s.data.map Char.toLower⟩

/-- `fmt.replace("p", "")`: a single-character pattern, so every `p` is deleted. -/
def removePChars (s : String) : String := ⟨s.data.filter (fun c => c ≠ 'p')⟩

/-- Index of the last occurrence of `c`, if any. -/
def lastIdxOf (c : Char) : List Char → Option Nat
  | [] => none
  | x :: xs =>
    match lastIdxOf c xs with
    | some n => some (n + 1)
    | none => if x = c then some 0 else none

/-- `os.path.splitext`: split at the last dot of the last component, unless the
component up to that dot is all dots (so `.bashrc`-style names keep no extension). -/
def splitext (p : String) : String × String :=
  let cs := p.data
  let fstart : Nat :=
    match lastIdxOf '/' cs with
    | some s => s + 1
    | none => 0
  match lastIdxOf '.' cs with
  | none => (p, "")
  | some d =>
    if d < fstart then (p, "")
    else if ((cs.drop fstart).take (d - fstart)).all (fun ch => ch = '.') then (p, "")
    else (⟨cs.take d⟩, ⟨cs.drop d⟩)

/-- `ext.lstrip(".").lower()`, the normalisation applied to both the current and
the desired extension in `safe_rename_media`. -/
def normExt (s : String) : String := pyLower ⟨s.data.dropWhile (fun c => c = '.')⟩

/-- The (normalised) current extension of a media path. -/
def extOf (p : String) : String := normExt (splitext p).2

/-- The rename target `f"{base}.{desired_ext}"` built by `safe_rename_media`. -/
def renameTarget (p d : String) : String := (splitext p).1 ++ "." ++ normExt d

/-- Boolean list-prefix test. -/
def isPref (pat s : List Char) : Bool :=
  match pat, s with
  | [], _ => true
  | _ :: _, [] => false
  | a :: ps, b :: ss => a = b && isPref ps ss

/-- Boolean substring test (Python's `pat in s`). -/
def hasSub (pat : List Char) : List Char → Bool
  | [] => isPref pat []
  | c :: ss => isPref pat (c :: ss) || hasSub pat ss

/-- Python `str.startswith`. -/
def pyStartsWith (s pat : String) : Bool := isPref pat.data s.data

/-- Python `str.endswith`. -/
def pyEndsWith (s pat : String) : Bool := isPref pat.data.reverse s.data.reverse

/-- `os.path.join a b` for a relative second component. -/
def ospath_join (a b : String) : String :=
  if pyStartsWith b "/" then b
  else if a = "" then b
  else if pyEndsWith a "/" then a ++ b
  else a ++ "/" ++ b

/-! ## The command builder -/

/-- The GUI's video-quality list `VIDEO_FORMATS`. -/
def VIDEO_FORMATS : List String := ["1080p", "720p", "480p", "360p", "240p", "best"]

/-- `format_filter` of the source. -/
def format_filter (fmt : String) : String :=
  if fmt = "best" then "bestvideo+bestaudio/best"
  else if fmt ∈ VIDEO_FORMATS then
    "bestvideo[height<=" ++ removePChars fmt ++ "]+bestaudio/best"
  else "bestaudio"

/-- `desired_audio_ext` of the source: the `aac → m4a`, `opus → webm` map. -/
def desired_audio_ext (fmt : String) : String :=
  if fmt = "aac" then "m4a" else if fmt = "opus" then "webm" else fmt

/-- The UI state read by `build_command_for_url` (one Tk variable per field). -/
structure Request where
  url : String
  outdir_var : String
  format_var : String
  audio_format_var : String
  audio_quality_var : String
  recode_enabled : Bool
  recode_var : String
  embed_thumb_var : Bool
  add_metadata_var : Bool
  force_overwrite_var : Bool
  user_agent_var : String
  use_cookies_var : Bool
  cookie_browser_var : String
  cookie_file_var : String
  no_playlist_var : Bool

/-- The ambient facts the builder consults: the default output directory, the
generated cookie file's path and whether it exists on disk, and whether
`shutil.which("ffmpeg")` found the transcoder. -/
structure Env where
  DEFAULT_OUTDIR : String
  COOKIE_FILE : String
  cookie_file_on_disk : Bool
  ffmpeg_available : Bool

/-- `outdir_var.get() or DEFAULT_OUTDIR`. -/
def outdir_of (env : Env) (r : Request) : String :=
  if r.outdir_var = "" then env.DEFAULT_OUTDIR else r.outdir_var

/-- The single `-o` template `os.path.join(outdir, "%(title)s.%(ext)s")`. -/
def out_tpl (env : Env) (r : Request) : String :=
  ospath_join (outdir_of env r) "%(title)s.%(ext)s"

def overwriteOpts (r : Request) : List String :=
  if r.force_overwrite_var then ["--force-overwrites"] else []

def metadataOpts (r : Request) : List String :=
  if r.add_metadata_var then ["--add-metadata"] else []

def uaOpts (r : Request) : List String :=
  if pyStrip r.user_agent_var ≠ "" then ["--user-agent", pyStrip r.user_agent_var] else []

/-- The recode directive plus the per-container codec hint. -/
def recodeOpts (r : Request) : List String :=
  if r.recode_enabled then
    if r.recode_var ≠ "" then
      ["--recode-video", r.recode_var] ++
        (if r.recode_var = "mp4" then ["--postprocessor-args", "ffmpeg:-c:v libx264"]
         else if r.recode_var = "webm" then ["--postprocessor-args", "ffmpeg:-c:v libvpx-vp9"]
         else [])
    else []
  else []

/-- The format-specific options: extract-audio for `"Audio"`, else the `-f`
selector plus the recode options. -/
def formatOpts (r : Request) : List String :=
  if r.format_var = "Audio" then
    ["-x", "--audio-format", pyLower r.audio_format_var] ++
      (if r.audio_quality_var ≠ "" then ["--audio-quality", r.audio_quality_var] else [])
  else
    (if format_filter r.format_var ≠ "" then ["-f", format_filter r.format_var] else []) ++
      recodeOpts r

/-- `cookie_browser_var.get().strip() or "firefox"`. -/
def cookieBrowser (r : Request) : String :=
  if pyStrip r.cookie_browser_var = "" then "firefox" else pyStrip r.cookie_browser_var

/-- Cookie handling: explicit file, then the generated file if on disk, else
browser extraction. -/
def cookieOpts (env : Env) (r : Request) : List String :=
  if r.use_cookies_var then
    if pyStrip r.cookie_file_var ≠ "" then ["--cookies", pyStrip r.cookie_file_var]
    else if env.cookie_file_on_disk then ["--cookies", env.COOKIE_FILE]
    else ["--cookies-from-browser", cookieBrowser r]
  else []

def playlistOpts (r : Request) : List String :=
  if r.no_playlist_var then ["--no-playlist"] else []

/-- The audio containers the source embeds cover art into. -/
def embeddable_audio : List String := ["mp3", "m4a", "flac", "ogg", "opus"]

/-- `safe_video_targets` of the source. -/
def safe_video_targets : List String := ["mp4", "mkv", "m4v", "mov"]

/-- Thumbnail handling: embed only when safe, else write the thumbnail to disk
converted to png.  In video mode `tgt` is the recode target when recoding is
enabled and `None` otherwise, and `None` is never in `safe_video_targets`, so
the condition is recoding-enabled ∧ target safe ∧ ffmpeg available. -/
def thumbOpts (env : Env) (r : Request) : List String :=
  if r.embed_thumb_var then
    if r.format_var = "Audio" then
      if desired_audio_ext (pyLower r.audio_format_var) ∈ embeddable_audio then
        ["--embed-thumbnail"]
      else ["--write-thumbnail", "--convert-thumbnails", "png"]
    else
      if r.recode_enabled ∧ r.recode_var ∈ safe_video_targets ∧ env.ffmpeg_available then
        ["--embed-thumbnail"]
      else ["--write-thumbnail", "--convert-thumbnails", "png"]
  else []

def urlOpts (r : Request) : List String := if r.url ≠ "" then [r.url] else []

/-- `build_command_for_url`: the segments in the exact order the source appends
them to `cmd`. -/
def build_command_for_url (env : Env) (r : Request) : List String :=
  ["yt-dlp", "-o", out_tpl env r] ++ overwriteOpts r ++ metadataOpts r ++ uaOpts r ++
    formatOpts r ++ cookieOpts env r ++ playlistOpts r ++ thumbOpts env r ++ urlOpts r

/-- The free-form strings that reach the argument vector (everything that is
not a fixed flag literal).  Hypotheses below exclude collisions between these
and the flag whose occurrences a claim counts. -/
def freeStrings (env : Env) (r : Request) : List String :=
  [out_tpl env r, pyStrip r.user_agent_var, pyLower r.audio_format_var,
   r.audio_quality_var, format_filter r.format_var, r.recode_var,
   pyStrip r.cookie_file_var, env.COOKIE_FILE, cookieBrowser r, r.url]

/-! ## The post-download reconciler -/

/-- A completed filesystem mutation performed by the reconciler. -/
inductive FSAction where
  | remove (path : String)
  | rename (src dst : String)
deriving DecidableEq

/-- The filesystem and external-prober oracle.  A `Bool`-valued `removeOk` /
`renameOk` says whether that `os.remove` / `os.rename` call succeeds (false =
it raises); the `Except Unit` operations either yield a value or raise. -/
structure FS where
  which_ffprobe : Bool
  osPathExists : String → Bool
  probeRun : String → Option String
  removeOk : String → Bool
  renameOk : String → String → Bool
  listdir : Except Unit (List String)
  isfile : String → Bool
  getmtime : String → Except Unit Int
  getsize : String → Except Unit Int

/-- `ffprobe_get_audio_codec`: `None` when the prober executable or the file is
missing, otherwise the prober's result (which is itself `None` on any failure
or empty output, all caught inside the helper). -/
def ffprobe_get_audio_codec (fs : FS) (path : String) : Option String :=
  if fs.which_ffprobe = false ∨ fs.osPathExists path = false then none
  else fs.probeRun path

/-- `codec_to_ext` of the source. -/
def codec_to_ext : List (String × String) :=
  [("mp3", "mp3"), ("aac", "m4a"), ("alac", "m4a"), ("mp4a", "m4a"),
   ("opus", "webm"), ("vorbis", "webm")]

/-- `container_compat` of the source, as a lookup on the desired extension. -/
def container_compat (desired : String) : Option (List String) :=
  if desired = "m4a" then some ["m4a", "mp4"]
  else if desired = "mp3" then some ["mp3"]
  else if desired = "webm" then some ["webm", "opus", "vorbis"]
  else none

/-- The shared `try: remove stale target if present; rename; return target
except: return media_path` block of `safe_rename_media`.  The returned list
holds the completed actions (a failing call completes nothing). -/
def attempt_rename (fs : FS) (media_path target : String) : String × List FSAction :=
  if fs.osPathExists target then
    if fs.removeOk target then
      if fs.renameOk media_path target then
        (target, [FSAction.remove target, FSAction.rename media_path target])
      else (media_path, [FSAction.remove target])
    else (media_path, [])
  else
    if fs.renameOk media_path target then (target, [FSAction.rename media_path target])
    else (media_path, [])

/-- The extension-compatibility fallback branch of `safe_rename_media`. -/
def compat_fallback (fs : FS) (media_path desired_ext : String) : String × List FSAction :=
  match container_compat (normExt desired_ext) with
  | some exts =>
    if extOf media_path ∈ exts then
      attempt_rename fs media_path (renameTarget media_path desired_ext)
    else (media_path, [])
  | none => (media_path, [])

/-- `safe_rename_media` of the source, returning the final path and the
completed filesystem actions. -/
def safe_rename_media (fs : FS) (media_path desired_ext : String) :
    String × List FSAction :=
  if media_path = "" ∨ desired_ext = "" then (media_path, [])
  else if extOf media_path = normExt desired_ext then (media_path, [])
  else
    match ffprobe_get_audio_codec fs media_path with
    | some c =>
      if c ≠ "" then
        match codec_to_ext.lookup c with
        | some safe_ext =>
          if safe_ext = normExt desired_ext then
            attempt_rename fs media_path (renameTarget media_path desired_ext)
          else (media_path, [])
        | none => compat_fallback fs media_path desired_ext
      else compat_fallback fs media_path desired_ext
    | none => compat_fallback fs media_path desired_ext

/-- A Python `try: ... except: fallback` around an expression. -/
def pyCatch {α : Type} (x : Except Unit α) (fallback : α) : α :=
  match x with
  | .ok a => a
  | .error _ => fallback

/-- `os.remove` as a raising operation. -/
def removeE (fs : FS) (p : String) : Except Unit Unit :=
  if fs.removeOk p then .ok () else .error ()

/-- `os.rename` as a raising operation. -/
def renameE (fs : FS) (src dst : String) : Except Unit Unit :=
  if fs.renameOk src dst then .ok () else .error ()

/-- Candidate discovery when the title is known: directory entries starting
with the title, regular files, modified at or after `start_time - 5`; any
exception in the loop empties the candidate list. -/
def discover_title (fs : FS) (outdir t : String) (start_time : Int) : List String :=
  pyCatch
    (do
      let names ← fs.listdir
      names.foldlM
        (fun acc f =>
          if pyStartsWith f t then
            let path := ospath_join outdir f
            if fs.isfile path then do
              let m ← fs.getmtime path
              pure (if m ≥ start_time - 5 then acc ++ [path] else acc)
            else pure acc
          else pure acc)
        ([] : List String))
    []

/-- Stable insertion keeping larger mtimes first (models Python's
`sorted(..., reverse=True)`; no verified claim depends on the tie order). -/
def insortDesc (x : String × Int) : List (String × Int) → List (String × Int)
  | [] => [x]
  | y :: ys => if y.2 ≥ x.2 then y :: insortDesc x ys else x :: y :: ys

def sortMtimeDesc (l : List (String × Int)) : List (String × Int) :=
  l.foldr insortDesc []

/-- Candidate discovery without a title: all entries, most recent first,
filtered by the 5-second backdated threshold; any exception empties the list. -/
def discover_untitled (fs : FS) (outdir : String) (start_time : Int) : List String :=
  pyCatch
    (do
      let names ← fs.listdir
      let keyed ← (names.map (ospath_join outdir)).mapM
        (fun p => do
          let m ← fs.getmtime p
          pure (p, m))
      pure (((sortMtimeDesc keyed).filter (fun pm => pm.2 ≥ start_time - 5)).map
        (fun pm => pm.1)))
    []

def discover_candidates (fs : FS) (outdir : String) (title : Option String)
    (start_time : Int) : List String :=
  match title with
  | some t => discover_title fs outdir t start_time
  | none => discover_untitled fs outdir start_time

/-- One step of the classification loop: thumbnails by extension, temp
artifacts by the `.temp.` marker, all others compete for the media slot with
largest-size preference (a failing `getsize` keeps the current media). -/
def classify_step (fs : FS) (acc : Option String × List String × List String)
    (p : String) : Option String × List String × List String :=
  let media := acc.1
  let thumbs := acc.2.1
  let temps := acc.2.2
  let lower := pyLower p
  if pyEndsWith lower ".webp" ∨ pyEndsWith lower ".jpg" ∨ pyEndsWith lower ".png" then
    (media, thumbs ++ [p], temps)
  else if hasSub ".temp.".data lower.data then
    (media, thumbs, temps ++ [p])
  else
    match media with
    | none => (some p, thumbs, temps)
    | some m =>
      (some (pyCatch
        (do
          let sp ← fs.getsize p
          let sm ← fs.getsize m
          pure (if sp > sm then p else m)) m), thumbs, temps)

def classify (fs : FS) (cands : List String) :
    Option String × List String × List String :=
  cands.foldl (classify_step fs) (none, [], [])

/-- The video-container rename: when not recoding and the selector is `mkv`,
rename the extension only, swallowing any error. -/
def mkv_rename (fs : FS) (media : String) : Unit :=
  if extOf media ≠ "mkv" then
    pyCatch
      (do
        let target := (splitext media).1 ++ ".mkv"
        if fs.osPathExists target then removeE fs target else pure ()
        renameE fs media target) ()
  else ()

/-- Everything inside the outer `try:` of `cleanup_and_rename`: classification,
the audio safe rename, the mkv container rename, and the unconditional deletion
of thumbnails and temp artifacts (each deletion's error swallowed). -/
def cleanup_body (fs : FS) (r : Request) (cands : List String) : Except Unit Unit := do
  let (media, thumbs, temps) := classify fs cands
  let _ :=
    match media with
    | some m =>
      if r.format_var = "Audio" then
        (safe_rename_media fs m (desired_audio_ext (pyLower r.audio_format_var))).1
      else m
    | none => ""
  let _ :=
    match media with
    | some m =>
      if r.format_var ≠ "Audio" ∧ r.recode_enabled = false ∧ r.recode_var = "mkv" then
        mkv_rename fs m
      else ()
    | none => ()
  let _ := (thumbs ++ temps).map (fun p => pyCatch (removeE fs p) ())
  pure ()

/-- `cleanup_and_rename`: discovery, then the outer `try: ... except: pass`. -/
def cleanup_and_rename (fs : FS) (env : Env) (r : Request) (title : Option String)
    (start_time : Int) : Except Unit Unit :=
  if outdir_of env r = "" then .ok ()
  else
    match cleanup_body fs r (discover_candidates fs (outdir_of env r) title start_time) with
    | .ok _ => .ok ()
    | .error _ => .ok ()

/-! ## Percentage extraction -/

/-- `\d` over the ASCII digits (the external tool's output is ASCII). -/
def isDigitCh (c : Char) : Bool := 48 ≤ c.toNat && c.toNat ≤ 57

/-- The numeric value of a digit list read as a decimal numeral. -/
def digitsToNat (ds : List Char) : Nat :=
  ds.foldl (fun a c => 10 * a + (c.toNat - 48)) 0

/-- Does the remaining input start with the literal `%`? -/
def startsPercent : List Char → Bool
  | '%' :: _ => true
  | _ => false

/-- Backtracking over the greedy `\d+` of the optional fraction: try `k` digits,
then `k - 1`, ... down to one; `fs` is the maximal digit run after the dot and
`after` the input following it. -/
def fracTry (ds fs after : List Char) : Nat → Option (List Char)
  | 0 => none
  | k + 1 =>
    if startsPercent (fs.drop (k + 1) ++ after) then some (ds ++ '.' :: fs.take (k + 1))
    else fracTry ds fs after k

/-- After the group's digits `ds`, match `(\.\d+)?%`: the fraction greedily
first, then its omission. -/
def tailTry (ds rest : List Char) : Option (List Char) :=
  match
    (match rest with
     | '.' :: r2 =>
       fracTry ds (r2.takeWhile isDigitCh) (r2.dropWhile isDigitCh)
         (r2.takeWhile isDigitCh).length
     | _ => none) with
  | some g => some g
  | none => if startsPercent rest then some ds else none

/-- Backtracking over `\d{1,3}`: try `d` digits, then `d - 1`, ... down to one. -/
def dTry (cs : List Char) : Nat → Option (List Char)
  | 0 => none
  | d + 1 =>
    match tailTry (cs.take (d + 1)) (cs.drop (d + 1)) with
    | some g => some g
    | none => dTry cs d

/-- Attempt the pattern `(\d{1,3}(?:\.\d+)?)%` at the current position. -/
def tryMatchHere (cs : List Char) : Option (List Char) :=
  dTry cs (min 3 (cs.takeWhile isDigitCh).length)

/-- `re.search`: positions left to right, first success wins. -/
def searchGroup : List Char → Option (List Char)
  | [] => none
  | c :: cs =>
    match tryMatchHere (c :: cs) with
    | some g => some g
    | none => searchGroup cs

/-- The exact rational value of the matched decimal numeral.  The Python
`float(m.group(1))` additionally rounds this value to an IEEE-754 binary64
double: that conversion is `roundFloat`, and the composition is
`extract_percent_float` below. -/
def groupValue (g : List Char) : ℚ :=
  match g.drop (g.takeWhile isDigitCh).length with
  | '.' :: fs => (digitsToNat (g.takeWhile isDigitCh) : ℚ) +
      (digitsToNat fs : ℚ) / (10 : ℚ) ^ fs.length
  | _ => (digitsToNat (g.takeWhile isDigitCh) : ℚ)

/-- `extract_percent` of the source. -/
def extract_percent (line : String) : Option ℚ :=
  (searchGroup line.data).map groupValue

/-- Declarative reading of the pattern at the head of the input: a run of one
to three digits, an optional decimal part, immediately preceding `%`, with `v`
its numeric value. -/
def MatchHere (cs : List Char) (v : ℚ) : Prop :=
  ∃ ds rest, cs = ds ++ rest ∧ ds ≠ [] ∧ ds.length ≤ 3 ∧
    (∀ c ∈ ds, isDigitCh c = true) ∧
    ((∃ r2, rest = '%' :: r2 ∧ v = (digitsToNat ds : ℚ)) ∨
     (∃ fs r2, rest = '.' :: (fs ++ '%' :: r2) ∧ fs ≠ [] ∧
       (∀ c ∈ fs, isDigitCh c = true) ∧
       v = (digitsToNat ds : ℚ) + (digitsToNat fs : ℚ) / (10 : ℚ) ^ fs.length))

/-- The pattern matched at position `i` of the line. -/
def MatchAt (cs : List Char) (i : Nat) (v : ℚ) : Prop := MatchHere (cs.drop i) v

/-! ## IEEE-754 binary64 rounding of the matched value

`float(m.group(1))` in CPython is the correctly rounded binary64 double of the
decimal numeral.  The matched group is a nonnegative numeral, so the model
covers nonnegative arguments; overflow to infinity is out of reach here (every
matched value is below 1000). -/

/-- Fuel-driven bit length: `bitLenF f n` is the number of binary digits of
`n` whenever `n ≤ f`. -/
def bitLenF : ℕ → ℕ → ℕ
  | 0, _ => 0
  | f + 1, n => if n = 0 then 0 else bitLenF f (n / 2) + 1

def bitLen (n : ℕ) : ℕ := bitLenF n n

/-- `⌊log₂ q⌋` for a positive rational: the bit lengths of numerator and
denominator give the exponent up to one, and the comparison corrects it. -/
def qFloorLog2 (q : ℚ) : ℤ :=
  if (2 : ℚ) ^ ((bitLen q.num.toNat : ℤ) - (bitLen q.den : ℤ)) ≤ q
  then (bitLen q.num.toNat : ℤ) - (bitLen q.den : ℤ)
  else (bitLen q.num.toNat : ℤ) - (bitLen q.den : ℤ) - 1

/-- Round to the nearest integer, ties to the even integer. -/
def rne (x : ℚ) : ℤ :=
  if x - ⌊x⌋ < 1 / 2 then ⌊x⌋
  else if x - ⌊x⌋ > 1 / 2 then ⌊x⌋ + 1
  else if ⌊x⌋ % 2 = 0 then ⌊x⌋ else ⌊x⌋ + 1

/-- IEEE-754 binary64 round-to-nearest-even of a nonnegative rational: round
on the grid of multiples of `2 ^ (⌊log₂ q⌋ - 52)`, floored at the subnormal
spacing `2 ^ (-1074)`. -/
def roundFloat (q : ℚ) : ℚ :=
  if q ≤ 0 then 0
  else (rne (q / (2 : ℚ) ^ (max (qFloorLog2 q - 52) (-1074))) : ℚ) *
    (2 : ℚ) ^ (max (qFloorLog2 q - 52) (-1074))

/-- What the Python `extract_percent` actually returns: the matched group
converted by `float`, i.e. the exact numeral value rounded to binary64. -/
def extract_percent_float (line : String) : Option ℚ :=
  (searchGroup line.data).map (fun g => roundFloat (groupValue g))

/-- The fractional digit run of the counterexample line (sixteen nines). -/
def fix999Frac : List Char :=
  ['9', '9', '9', '9', '9', '9', '9', '9', '9', '9', '9', '9', '9', '9', '9', '9']

/-- The group matched on the counterexample line `999.9999999999999999%`. -/
def fix999Group : List Char := '9' :: '9' :: '9' :: '.' :: fix999Frac

/-! ## Concrete fixtures used by the witness theorems -/

/-- A filesystem on which every operation fails and the prober is absent. -/
def fsAllFail : FS where
  which_ffprobe := false
  osPathExists := fun _ => false
  probeRun := fun _ => none
  removeOk := fun _ => false
  renameOk := fun _ _ => false
  listdir := .error ()
  isfile := fun _ => false
  getmtime := fun _ => .error ()
  getsize := fun _ => .error ()

/-- A filesystem holding exactly `song.mp3`, whose prober reports `opus`, and
on which renames succeed. -/
def fsOpus : FS :=
  { fsAllFail with
    which_ffprobe := true
    osPathExists := fun p => p == "song.mp3"
    probeRun := fun _ => some "opus"
    renameOk := fun _ _ => true }

/-- A filesystem without a prober on which renames succeed. -/
def fsNoProbe : FS :=
  { fsAllFail with renameOk := fun _ _ => true }

def envW : Env where
  DEFAULT_OUTDIR := "/home/u/Downloads"
  COOKIE_FILE := "/home/u/.yt-dlp-cookies.txt"
  cookie_file_on_disk := false
  ffmpeg_available := true

/-- A baseline request for the witness theorems. -/
def rBase : Request where
  url := "https://example.org/v"
  outdir_var := "/home/u/Downloads"
  format_var := "720p"
  audio_format_var := "mp3"
  audio_quality_var := "0"
  recode_enabled := false
  recode_var := "mp4"
  embed_thumb_var := false
  add_metadata_var := true
  force_overwrite_var := true
  user_agent_var := "Mozilla/5.0 (X11; Linux x86_64)"
  use_cookies_var := false
  cookie_browser_var := "firefox"
  cookie_file_var := ""
  no_playlist_var := true

/-! ## Lemmas about the safe rename -/

theorem attempt_rename_fail_fst (fs : FS) (media target : String)
    (h : fs.renameOk media target = false) :
    (attempt_rename fs media target).1 = media := by
  unfold attempt_rename
  split_ifs <;> simp_all

theorem compat_fallback_fail_fst (fs : FS) (media desired : String)
    (h : fs.renameOk media (renameTarget media desired) = false) :
    (compat_fallback fs media desired).1 = media := by
  unfold compat_fallback
  split
  · split
    · exact attempt_rename_fail_fst _ _ _ h
    · rfl
  · rfl

/-- CLAIM C7: the reconciler never raises to its caller — `cleanup_and_rename`
returns normally on every input and oracle behaviour (listing, probing, sizing,
renaming or deleting may all fail), and `safe_rename_media` returns the
original unmodified path whenever the rename operation fails. -/
theorem cleanup_never_raises :
    (∀ (fs : FS) (env : Env) (r : Request) (title : Option String) (t : Int),
      cleanup_and_rename fs env r title t = Except.ok ()) ∧
    (∀ (fs : FS) (media desired : String),
      fs.renameOk media (renameTarget media desired) = false →
      (safe_rename_media fs media desired).1 = media) := by
  constructor
  · intro fs env r title t
    unfold cleanup_and_rename
    split
    · rfl
    · split <;> rfl
  · intro fs media desired h
    unfold safe_rename_media
    split
    · rfl
    · split
      · rfl
      · split
        · split
          · split
            · split
              · exact attempt_rename_fail_fst _ _ _ h
              · rfl
            · exact compat_fallback_fail_fst _ _ _ h
          · exact compat_fallback_fail_fst _ _ _ h
        · exact compat_fallback_fail_fst _ _ _ h

theorem cleanup_never_raises_witness :
    (safe_rename_media fsAllFail "a.mp4" "m4a").1 = "a.mp4" :=
  cleanup_never_raises.2 fsAllFail "a.mp4" "m4a" rfl

/-- CLAIM C8: safe rename is idempotent — when the current extension already
equals the desired one (both stripped of leading dots and lowercased) it
performs no filesystem operation and returns exactly the given path, and a
second application yields the same result as the first. -/
theorem safe_rename_idempotent (fs : FS) (media desired : String)
    (h : extOf media = normExt desired) :
    safe_rename_media fs media desired = (media, []) ∧
    safe_rename_media fs (safe_rename_media fs media desired).1 desired =
      safe_rename_media fs media desired := by
  have h1 : safe_rename_media fs media desired = (media, []) := by
    simp [safe_rename_media, h]
  exact ⟨h1, by rw [h1]; exact h1⟩

theorem safe_rename_idempotent_witness :
    safe_rename_media fsAllFail "a.m4a" "m4a" = ("a.m4a", []) ∧
    safe_rename_media fsAllFail (safe_rename_media fsAllFail "a.m4a" "m4a").1 "m4a" =
      safe_rename_media fsAllFail "a.m4a" "m4a" :=
  safe_rename_idempotent fsAllFail "a.m4a" "m4a" (by decide)

/-- CLAIM C2: with a probed codec in the `codec_to_ext` map, and a current
extension differing from the desired one, the rename happens exactly when the
mapped extension equals the desired extension — removing a pre-existing file
at the target name first — and otherwise the original path is returned with no
action taken. -/
theorem safe_rename_probed_codec (fs : FS) (media desired c m : String)
    (hmp : media ≠ "") (hde : desired ≠ "")
    (hne : extOf media ≠ normExt desired)
    (hpr : ffprobe_get_audio_codec fs media = some c)
    (hc : c ≠ "")
    (hmap : codec_to_ext.lookup c = some m) :
    (m = normExt desired →
      (fs.osPathExists (renameTarget media desired) = true →
        fs.removeOk (renameTarget media desired) = true →
        fs.renameOk media (renameTarget media desired) = true →
        safe_rename_media fs media desired =
          (renameTarget media desired,
           [FSAction.remove (renameTarget media desired),
            FSAction.rename media (renameTarget media desired)])) ∧
      (fs.osPathExists (renameTarget media desired) = false →
        fs.renameOk media (renameTarget media desired) = true →
        safe_rename_media fs media desired =
          (renameTarget media desired,
           [FSAction.rename media (renameTarget media desired)]))) ∧
    (m ≠ normExt desired → safe_rename_media fs media desired = (media, [])) := by
  refine ⟨fun hm => ⟨fun hex hrm hrn => ?_, fun hex hrn => ?_⟩, fun hm => ?_⟩ <;>
    simp [safe_rename_media, attempt_rename, hmp, hde, hne, hpr, hc, hmap, hm, *]

theorem safe_rename_probed_codec_witness :
    safe_rename_media fsOpus "song.mp3" "webm" =
      (renameTarget "song.mp3" "webm",
       [FSAction.rename "song.mp3" (renameTarget "song.mp3" "webm")]) :=
  ((safe_rename_probed_codec fsOpus "song.mp3" "webm" "opus" "webm" (by decide) (by decide)
      (by decide) (by decide) (by decide) (by decide)).1 (by decide)).2 (by decide) (by decide)

/-- CLAIM C3: when the prober is unavailable or reports an unknown codec, the
rename falls back to the extension-compatibility table: it happens exactly when
the current extension is listed as compatible with the desired one, an equal
extension is a no-op, and a desired extension outside the table leaves the
path untouched. -/
theorem safe_rename_compat (fs : FS) (media desired : String)
    (hmp : media ≠ "") (hde : desired ≠ "")
    (hun : ffprobe_get_audio_codec fs media = none ∨
      ∃ c, ffprobe_get_audio_codec fs media = some c ∧
        (c = "" ∨ codec_to_ext.lookup c = none)) :
    (extOf media = normExt desired → safe_rename_media fs media desired = (media, [])) ∧
    (extOf media ≠ normExt desired →
      (∀ exts, container_compat (normExt desired) = some exts → extOf media ∈ exts →
        (fs.osPathExists (renameTarget media desired) = true →
          fs.removeOk (renameTarget media desired) = true →
          fs.renameOk media (renameTarget media desired) = true →
          safe_rename_media fs media desired =
            (renameTarget media desired,
             [FSAction.remove (renameTarget media desired),
              FSAction.rename media (renameTarget media desired)])) ∧
        (fs.osPathExists (renameTarget media desired) = false →
          fs.renameOk media (renameTarget media desired) = true →
          safe_rename_media fs media desired =
            (renameTarget media desired,
             [FSAction.rename media (renameTarget media desired)]))) ∧
      (container_compat (normExt desired) = none →
        safe_rename_media fs media desired = (media, [])) ∧
      (∀ exts, container_compat (normExt desired) = some exts → extOf media ∉ exts →
        safe_rename_media fs media desired = (media, []))) := by
  refine ⟨fun h => ?_, fun hne => ?_⟩
  · simp [safe_rename_media, hmp, hde, h]
  · have hcf : safe_rename_media fs media desired = compat_fallback fs media desired := by
      rcases hun with h | ⟨c, hcod, hcc⟩
      · simp [safe_rename_media, hmp, hde, hne, h]
      · rcases hcc with h0 | hl
        · subst h0
          simp [safe_rename_media, hmp, hde, hne, hcod]
        · simp [safe_rename_media, hmp, hde, hne, hcod, hl]
    refine ⟨fun exts hcc hmem => ⟨fun hex hrm hrn => ?_, fun hex hrn => ?_⟩,
      fun hcc => ?_, fun exts hcc hmem => ?_⟩ <;>
      rw [hcf] <;> simp [compat_fallback, attempt_rename, *]

/-! ## Lemmas about the command builder -/

theorem mem_overwriteOpts {r : Request} {s : String} (h : s ∈ overwriteOpts r) :
    s = "--force-overwrites" := by
  unfold overwriteOpts at h
  split at h <;> simp_all

theorem mem_metadataOpts {r : Request} {s : String} (h : s ∈ metadataOpts r) :
    s = "--add-metadata" := by
  unfold metadataOpts at h
  split at h <;> simp_all

theorem mem_uaOpts {r : Request} {s : String} (h : s ∈ uaOpts r) :
    s = "--user-agent" ∨ s = pyStrip r.user_agent_var := by
  unfold uaOpts at h
  split at h <;> simp_all

theorem mem_playlistOpts {r : Request} {s : String} (h : s ∈ playlistOpts r) :
    s = "--no-playlist" := by
  unfold playlistOpts at h
  split at h <;> simp_all

theorem mem_urlOpts {r : Request} {s : String} (h : s ∈ urlOpts r) : s = r.url := by
  unfold urlOpts at h
  split at h <;> simp_all

theorem mem_formatOpts_sub {r : Request} {s : String} (h : s ∈ formatOpts r) :
    s ∈ (["-x", "--audio-format", "--audio-quality", "-f", "--recode-video",
          "--postprocessor-args", "ffmpeg:-c:v libx264", "ffmpeg:-c:v libvpx-vp9"] :
        List String) ∨
    s ∈ ([pyLower r.audio_format_var, r.audio_quality_var, format_filter r.format_var,
          r.recode_var] : List String) := by
  unfold formatOpts recodeOpts at h
  split_ifs at h <;> simp_all <;> tauto

theorem mem_cookieOpts_sub {env : Env} {r : Request} {s : String}
    (h : s ∈ cookieOpts env r) :
    s ∈ (["--cookies", "--cookies-from-browser"] : List String) ∨
    s ∈ ([pyStrip r.cookie_file_var, env.COOKIE_FILE, cookieBrowser r] : List String) := by
  unfold cookieOpts at h
  split_ifs at h <;> simp_all <;> tauto

theorem mem_thumbOpts_sub {env : Env} {r : Request} {s : String}
    (h : s ∈ thumbOpts env r) :
    s ∈ (["--embed-thumbnail", "--write-thumbnail", "--convert-thumbnails", "png"] :
        List String) := by
  unfold thumbOpts at h
  split_ifs at h <;> simp_all

theorem fmt_free_sub {env : Env} {r : Request} {s : String}
    (h : s ∈ ([pyLower r.audio_format_var, r.audio_quality_var, format_filter r.format_var,
          r.recode_var] : List String)) :
    s ∈ freeStrings env r := by
  simp only [freeStrings, List.mem_cons, List.not_mem_nil, or_false] at *
  tauto

theorem cookie_free_sub {env : Env} {r : Request} {s : String}
    (h : s ∈ ([pyStrip r.cookie_file_var, env.COOKIE_FILE, cookieBrowser r] : List String)) :
    s ∈ freeStrings env r := by
  simp only [freeStrings, List.mem_cons, List.not_mem_nil, or_false] at *
  tauto

theorem mem_build_decomp {env : Env} {r : Request} {s : String}
    (h : s ∈ build_command_for_url env r) :
    s ∈ (["yt-dlp", "-o", "--force-overwrites", "--add-metadata", "--user-agent",
          "--no-playlist"] : List String) ∨
    s ∈ freeStrings env r ∨ s ∈ formatOpts r ∨ s ∈ cookieOpts env r ∨
    s ∈ thumbOpts env r := by
  unfold build_command_for_url at h
  simp only [List.mem_append] at h
  rcases h with ((((((((h | h) | h) | h) | h) | h) | h) | h) | h)
  · simp only [List.mem_cons, List.not_mem_nil, or_false] at h
    rcases h with h | h | h
    · exact Or.inl (by simp [h])
    · exact Or.inl (by simp [h])
    · exact Or.inr (Or.inl (by simp [freeStrings, h]))
  · exact Or.inl (by simp [mem_overwriteOpts h])
  · exact Or.inl (by simp [mem_metadataOpts h])
  · rcases mem_uaOpts h with h | h
    · exact Or.inl (by simp [h])
    · exact Or.inr (Or.inl (by simp [freeStrings, h]))
  · exact Or.inr (Or.inr (Or.inl h))
  · exact Or.inr (Or.inr (Or.inr (Or.inl h)))
  · exact Or.inl (by simp [mem_playlistOpts h])
  · exact Or.inr (Or.inr (Or.inr (Or.inr h)))
  · exact Or.inr (Or.inl (by simp [freeStrings, mem_urlOpts h]))

theorem not_mem_build {env : Env} {r : Request} {flag : String}
    (hfix : flag ∉ (["yt-dlp", "-o", "--force-overwrites", "--add-metadata",
        "--user-agent", "--no-playlist"] : List String))
    (hfree : flag ∉ freeStrings env r)
    (hfmt : flag ∉ formatOpts r)
    (hck : flag ∉ cookieOpts env r)
    (hth : flag ∉ thumbOpts env r) :
    flag ∉ build_command_for_url env r := by
  intro h
  rcases mem_build_decomp h with h | h | h | h | h
  exacts [hfix h, hfree h, hfmt h, hck h, hth h]

theorem not_mem_formatOpts {env : Env} {r : Request} {flag : String}
    (hfmtfix : flag ∉ (["-x", "--audio-format", "--audio-quality", "-f", "--recode-video",
        "--postprocessor-args", "ffmpeg:-c:v libx264", "ffmpeg:-c:v libvpx-vp9"] :
        List String))
    (hfree : flag ∉ freeStrings env r) :
    flag ∉ formatOpts r := by
  intro h
  rcases mem_formatOpts_sub h with h | h
  · exact hfmtfix h
  · exact hfree (fmt_free_sub h)

theorem not_mem_cookieOpts {env : Env} {r : Request} {flag : String}
    (hckfix : flag ∉ (["--cookies", "--cookies-from-browser"] : List String))
    (hfree : flag ∉ freeStrings env r) :
    flag ∉ cookieOpts env r := by
  intro h
  rcases mem_cookieOpts_sub h with h | h
  · exact hckfix h
  · exact hfree (cookie_free_sub h)

theorem build_parts_fmt (env : Env) (r : Request) :
    build_command_for_url env r =
      (["yt-dlp", "-o", out_tpl env r] ++ overwriteOpts r ++ metadataOpts r ++ uaOpts r) ++
        formatOpts r ++
        (cookieOpts env r ++ playlistOpts r ++ thumbOpts env r ++ urlOpts r) := by
  simp [build_command_for_url, List.append_assoc]

theorem build_parts_cookie (env : Env) (r : Request) :
    build_command_for_url env r =
      (["yt-dlp", "-o", out_tpl env r] ++ overwriteOpts r ++ metadataOpts r ++ uaOpts r ++
          formatOpts r) ++
        cookieOpts env r ++ (playlistOpts r ++ thumbOpts env r ++ urlOpts r) := by
  simp [build_command_for_url, List.append_assoc]

theorem build_parts_thumb (env : Env) (r : Request) :
    build_command_for_url env r =
      (["yt-dlp", "-o", out_tpl env r] ++ overwriteOpts r ++ metadataOpts r ++ uaOpts r ++
          formatOpts r ++ cookieOpts env r ++ playlistOpts r) ++
        thumbOpts env r ++ urlOpts r := by
  simp [build_command_for_url, List.append_assoc]

theorem format_filter_ne_empty (fmt : String) : format_filter fmt ≠ "" := by
  unfold format_filter
  split_ifs <;> intro h
  · exact absurd h (by decide)
  · have hl := congrArg String.length h
    rw [String.length_append, String.length_append] at hl
    have h1 : ("bestvideo[height<=" : String).length = 18 := by decide
    have h2 : ("]+bestaudio/best" : String).length = 16 := by decide
    have h3 : ("" : String).length = 0 := by decide
    omega
  · exact absurd h (by decide)

theorem formatOpts_video (r : Request) (hmode : r.format_var ≠ "Audio") :
    formatOpts r = ["-f", format_filter r.format_var] ++ recodeOpts r := by
  unfold formatOpts
  rw [if_neg hmode, if_pos (format_filter_ne_empty r.format_var)]

theorem formatOpts_audio (r : Request) (hmode : r.format_var = "Audio") :
    formatOpts r = ["-x", "--audio-format", pyLower r.audio_format_var] ++
      (if r.audio_quality_var ≠ "" then ["--audio-quality", r.audio_quality_var] else []) := by
  unfold formatOpts
  rw [if_pos hmode]

theorem not_mem_thumbOpts_of {env : Env} {r : Request} {flag : String}
    (h : flag ∉ (["--embed-thumbnail", "--write-thumbnail", "--convert-thumbnails", "png"] :
        List String)) :
    flag ∉ thumbOpts env r :=
  fun hm => h (mem_thumbOpts_sub hm)

theorem not_mem_formatOpts_audio {env : Env} {r : Request} {flag : String}
    (hmode : r.format_var = "Audio")
    (hfix : flag ∉ (["-x", "--audio-format", "--audio-quality"] : List String))
    (hfree : flag ∉ freeStrings env r) :
    flag ∉ formatOpts r := by
  rw [formatOpts_audio r hmode]
  intro hm
  rcases List.mem_append.1 hm with hm | hm
  · simp only [List.mem_cons, List.not_mem_nil, or_false] at hm
    rcases hm with hm | hm | hm
    · exact hfix (by simp [hm])
    · exact hfix (by simp [hm])
    · exact hfree (by simp [freeStrings, hm])
  · split at hm
    · simp only [List.mem_cons, List.not_mem_nil, or_false] at hm
      rcases hm with hm | hm
      · exact hfix (by simp [hm])
      · exact hfree (by simp [freeStrings, hm])
    · simp at hm

/-- CLAIM C5: in `"Audio"` mode the built command contains no `-f` video-format
filter and no `--recode-video` directive, contains `-x` with `--audio-format`
set to the chosen (lowercased) audio format, and `--audio-quality` with the
chosen quality whenever that quality is non-empty.  The two exclusion
hypotheses only rule out a free-form field being the literal flag string. -/
theorem build_audio_mode_flags (env : Env) (r : Request)
    (hmode : r.format_var = "Audio")
    (h1 : "-f" ∉ freeStrings env r)
    (h2 : "--recode-video" ∉ freeStrings env r) :
    "-f" ∉ build_command_for_url env r ∧
    "--recode-video" ∉ build_command_for_url env r ∧
    (∃ u v, build_command_for_url env r =
      u ++ ["-x", "--audio-format", pyLower r.audio_format_var] ++ v) ∧
    (r.audio_quality_var ≠ "" →
      ∃ u v, build_command_for_url env r =
        u ++ ["--audio-quality", r.audio_quality_var] ++ v) := by
  refine ⟨
    not_mem_build (by decide) h1
      (not_mem_formatOpts_audio hmode (by decide) h1)
      (not_mem_cookieOpts (by decide) h1)
      (not_mem_thumbOpts_of (by decide)),
    not_mem_build (by decide) h2
      (not_mem_formatOpts_audio hmode (by decide) h2)
      (not_mem_cookieOpts (by decide) h2)
      (not_mem_thumbOpts_of (by decide)), ?_, ?_⟩
  · refine ⟨["yt-dlp", "-o", out_tpl env r] ++ overwriteOpts r ++ metadataOpts r ++ uaOpts r,
      (if r.audio_quality_var ≠ "" then ["--audio-quality", r.audio_quality_var] else []) ++
        (cookieOpts env r ++ playlistOpts r ++ thumbOpts env r ++ urlOpts r), ?_⟩
    rw [build_parts_fmt, formatOpts_audio r hmode]
    simp [List.append_assoc]
  · intro haq
    refine ⟨["yt-dlp", "-o", out_tpl env r] ++ overwriteOpts r ++ metadataOpts r ++
      uaOpts r ++ ["-x", "--audio-format", pyLower r.audio_format_var],
      cookieOpts env r ++ playlistOpts r ++ thumbOpts env r ++ urlOpts r, ?_⟩
    rw [build_parts_fmt, formatOpts_audio r hmode, if_pos haq]
    simp [List.append_assoc]

theorem build_audio_mode_flags_witness :
    ("-f" ∉ build_command_for_url envW { rBase with format_var := "Audio" }) ∧
    (∃ u v, build_command_for_url envW { rBase with format_var := "Audio" } =
      u ++ ["-x", "--audio-format",
        pyLower ({ rBase with format_var := "Audio" } : Request).audio_format_var] ++ v) :=
  ⟨(build_audio_mode_flags envW { rBase with format_var := "Audio" } (by decide)
      (by decide) (by decide)).1,
   (build_audio_mode_flags envW { rBase with format_var := "Audio" } (by decide)
      (by decide) (by decide)).2.2.1⟩

/-- CLAIM C4: for a non-Audio request the format selector is
`bestvideo+bestaudio/best` for `"best"`, `bestvideo[height<=h]+bestaudio/best`
for a height bucket `hp` of the video-quality list, and `bestaudio` otherwise;
with recoding disabled the command carries no `--recode-video`. -/
theorem build_video_format_selector (env : Env) (r : Request)
    (hmode : r.format_var ≠ "Audio") :
    (r.format_var = "best" →
      ∃ u v, build_command_for_url env r =
        u ++ ["-f", "bestvideo+bestaudio/best"] ++ v) ∧
    (r.format_var ∈ (["1080p", "720p", "480p", "360p", "240p"] : List String) →
      ∃ u v, build_command_for_url env r =
        u ++ ["-f", "bestvideo[height<=" ++ removePChars r.format_var ++
          "]+bestaudio/best"] ++ v) ∧
    (r.format_var ∉ VIDEO_FORMATS →
      ∃ u v, build_command_for_url env r = u ++ ["-f", "bestaudio"] ++ v) ∧
    (r.recode_enabled = false → "--recode-video" ∉ freeStrings env r →
      "--recode-video" ∉ build_command_for_url env r) := by
  have hdec : ∃ u v, build_command_for_url env r =
      u ++ ["-f", format_filter r.format_var] ++ v := by
    refine ⟨["yt-dlp", "-o", out_tpl env r] ++ overwriteOpts r ++ metadataOpts r ++ uaOpts r,
      recodeOpts r ++ (cookieOpts env r ++ playlistOpts r ++ thumbOpts env r ++ urlOpts r), ?_⟩
    rw [build_parts_fmt, formatOpts_video r hmode]
    simp [List.append_assoc]
  refine ⟨fun hb => ?_, fun hb => ?_, fun hb => ?_, fun hrec hfree => ?_⟩
  · rwa [show format_filter r.format_var = "bestvideo+bestaudio/best" from by
      rw [format_filter, if_pos hb]] at hdec
  · rwa [show format_filter r.format_var =
        "bestvideo[height<=" ++ removePChars r.format_var ++ "]+bestaudio/best" from by
      have hnb : r.format_var ≠ "best" := by
        intro hcon; rw [hcon] at hb; exact absurd hb (by decide)
      have hvf : r.format_var ∈ VIDEO_FORMATS := by
        simp only [VIDEO_FORMATS, List.mem_cons, List.not_mem_nil, or_false] at *
        tauto
      rw [format_filter, if_neg hnb, if_pos hvf]] at hdec
  · rwa [show format_filter r.format_var = "bestaudio" from by
      have hnb : r.format_var ≠ "best" := fun hcon => hb (by rw [hcon]; decide)
      rw [format_filter, if_neg hnb, if_neg hb]] at hdec
  · refine not_mem_build (by decide) hfree ?_
      (not_mem_cookieOpts (by decide) hfree) (not_mem_thumbOpts_of (by decide))
    rw [formatOpts_video r hmode]
    intro hm
    rcases List.mem_append.1 hm with hm | hm
    · simp only [List.mem_cons, List.not_mem_nil, or_false] at hm
      rcases hm with hm | hm
      · exact absurd hm (by decide)
      · exact hfree (by simp [freeStrings, hm])
    · unfold recodeOpts at hm
      rw [hrec] at hm
      simp at hm

theorem build_video_format_selector_witness :
    (∃ u v, build_command_for_url envW rBase =
      u ++ ["-f", "bestvideo[height<=" ++ removePChars rBase.format_var ++
        "]+bestaudio/best"] ++ v) ∧
    ("--recode-video" ∉ build_command_for_url envW rBase) :=
  ⟨(build_video_format_selector envW rBase (by decide)).2.1 (by decide),
   (build_video_format_selector envW rBase (by decide)).2.2.2 (by decide) (by decide)⟩

/-- CLAIM C1: with the thumbnail checkbox enabled, the embed-thumbnail flag is
emitted only when safe — in Audio mode only when the desired audio container
(the audio format after the `aac → m4a`, `opus → webm` map) is in the
embeddable set, in video mode only when recoding is enabled with a safe target
and ffmpeg is present — and in every other case the command carries the
write-thumbnail plus convert-thumbnails-to-png directives and never the
embed-thumbnail flag. -/
theorem build_embed_thumbnail_safe (env : Env) (r : Request)
    (hemb : r.embed_thumb_var = true)
    (hfree : "--embed-thumbnail" ∉ freeStrings env r) :
    (r.format_var = "Audio" →
      (desired_audio_ext (pyLower r.audio_format_var) ∈ embeddable_audio →
        "--embed-thumbnail" ∈ build_command_for_url env r) ∧
      (desired_audio_ext (pyLower r.audio_format_var) ∉ embeddable_audio →
        "--embed-thumbnail" ∉ build_command_for_url env r ∧
        ∃ u v, build_command_for_url env r =
          u ++ ["--write-thumbnail", "--convert-thumbnails", "png"] ++ v)) ∧
    (r.format_var ≠ "Audio" →
      ((r.recode_enabled = true ∧ r.recode_var ∈ safe_video_targets ∧
          env.ffmpeg_available = true) →
        "--embed-thumbnail" ∈ build_command_for_url env r) ∧
      (¬(r.recode_enabled = true ∧ r.recode_var ∈ safe_video_targets ∧
          env.ffmpeg_available = true) →
        "--embed-thumbnail" ∉ build_command_for_url env r ∧
        ∃ u v, build_command_for_url env r =
          u ++ ["--write-thumbnail", "--convert-thumbnails", "png"] ++ v)) := by
  constructor
  · intro hmode
    constructor
    · intro hsafe
      have ht : thumbOpts env r = ["--embed-thumbnail"] := by
        simp [thumbOpts, hemb, hmode, hsafe]
      rw [build_parts_thumb, ht]
      simp
    · intro hunsafe
      have ht : thumbOpts env r = ["--write-thumbnail", "--convert-thumbnails", "png"] := by
        simp [thumbOpts, hemb, hmode, hunsafe]
      refine ⟨not_mem_build (by decide) hfree (not_mem_formatOpts (by decide) hfree)
        (not_mem_cookieOpts (by decide) hfree) (by rw [ht]; decide), ?_⟩
      refine ⟨["yt-dlp", "-o", out_tpl env r] ++ overwriteOpts r ++ metadataOpts r ++
        uaOpts r ++ formatOpts r ++ cookieOpts env r ++ playlistOpts r, urlOpts r, ?_⟩
      rw [build_parts_thumb, ht]
  · intro hmode
    constructor
    · intro hsafe
      have ht : thumbOpts env r = ["--embed-thumbnail"] := by
        simp [thumbOpts, hemb, hmode, hsafe.1, hsafe.2.1, hsafe.2.2]
      rw [build_parts_thumb, ht]
      simp
    · intro hunsafe
      have ht : thumbOpts env r = ["--write-thumbnail", "--convert-thumbnails", "png"] := by
        simp only [thumbOpts, hemb, if_true]
        rw [if_neg hmode, if_neg hunsafe]
      refine ⟨not_mem_build (by decide) hfree (not_mem_formatOpts (by decide) hfree)
        (not_mem_cookieOpts (by decide) hfree) (by rw [ht]; decide), ?_⟩
      refine ⟨["yt-dlp", "-o", out_tpl env r] ++ overwriteOpts r ++ metadataOpts r ++
        uaOpts r ++ formatOpts r ++ cookieOpts env r ++ playlistOpts r, urlOpts r, ?_⟩
      rw [build_parts_thumb, ht]

theorem build_embed_thumbnail_safe_witness :
    "--embed-thumbnail" ∈ build_command_for_url envW
      { rBase with embed_thumb_var := true, recode_enabled := true } :=
  ((build_embed_thumbnail_safe envW
      { rBase with embed_thumb_var := true, recode_enabled := true } rfl (by decide)).2
    (by decide)).1 ⟨rfl, by decide, rfl⟩

theorem count_build_eq_cookie (env : Env) (r : Request) (flag : String)
    (hfix : flag ∉ (["yt-dlp", "-o", "--force-overwrites", "--add-metadata",
        "--user-agent", "--no-playlist"] : List String))
    (hfmt : flag ∉ formatOpts r)
    (hth : flag ∉ thumbOpts env r)
    (hfree : flag ∉ freeStrings env r) :
    (build_command_for_url env r).count flag = (cookieOpts env r).count flag := by
  rw [build_parts_cookie, List.count_append, List.count_append]
  have hpre : flag ∉ (["yt-dlp", "-o", out_tpl env r] ++ overwriteOpts r ++
      metadataOpts r ++ uaOpts r ++ formatOpts r) := by
    intro h
    rcases List.mem_append.1 h with h | h
    · rcases List.mem_append.1 h with h | h
      · rcases List.mem_append.1 h with h | h
        · rcases List.mem_append.1 h with h | h
          · simp only [List.mem_cons, List.not_mem_nil, or_false] at h
            rcases h with h | h | h
            · exact hfix (by simp [h])
            · exact hfix (by simp [h])
            · exact hfree (by simp [freeStrings, h])
          · exact hfix (by simp [mem_overwriteOpts h])
        · exact hfix (by simp [mem_metadataOpts h])
      · rcases mem_uaOpts h with h | h
        · exact hfix (by simp [h])
        · exact hfree (by simp [freeStrings, h])
    · exact hfmt h
  have hpost : flag ∉ (playlistOpts r ++ thumbOpts env r ++ urlOpts r) := by
    intro h
    rcases List.mem_append.1 h with h | h
    · rcases List.mem_append.1 h with h | h
      · exact hfix (by simp [mem_playlistOpts h])
      · exact hth h
    · exact hfree (by simp [freeStrings, mem_urlOpts h])
  rw [List.count_eq_zero.mpr hpre, List.count_eq_zero.mpr hpost]
  omega

/-- CLAIM C6: with cookies enabled the command carries exactly one cookie
directive, chosen by precedence — the explicit stripped file path when
non-empty, else the generated default cookie file when it exists on disk, else
browser extraction with the configured browser, defaulting to `firefox` when
unset; with cookies disabled no cookie directive appears. -/
theorem build_cookie_directive (env : Env) (r : Request)
    (h1 : "--cookies" ∉ freeStrings env r)
    (h2 : "--cookies-from-browser" ∉ freeStrings env r) :
    (r.use_cookies_var = true →
      ((build_command_for_url env r).count "--cookies" +
        (build_command_for_url env r).count "--cookies-from-browser" = 1) ∧
      (pyStrip r.cookie_file_var ≠ "" →
        ∃ u v, build_command_for_url env r =
          u ++ ["--cookies", pyStrip r.cookie_file_var] ++ v) ∧
      (pyStrip r.cookie_file_var = "" → env.cookie_file_on_disk = true →
        ∃ u v, build_command_for_url env r =
          u ++ ["--cookies", env.COOKIE_FILE] ++ v) ∧
      (pyStrip r.cookie_file_var = "" → env.cookie_file_on_disk = false →
        ∃ u v, build_command_for_url env r =
          u ++ ["--cookies-from-browser", cookieBrowser r] ++ v) ∧
      (pyStrip r.cookie_browser_var = "" → cookieBrowser r = "firefox")) ∧
    (r.use_cookies_var = false →
      "--cookies" ∉ build_command_for_url env r ∧
      "--cookies-from-browser" ∉ build_command_for_url env r) := by
  have hnc1 : "--cookies" ≠ pyStrip r.cookie_file_var := by
    intro hcon; exact h1 (by rw [hcon]; simp [freeStrings])
  have hnc2 : "--cookies" ≠ env.COOKIE_FILE := by
    intro hcon; exact h1 (by rw [hcon]; simp [freeStrings])
  have hnc3 : "--cookies-from-browser" ≠ pyStrip r.cookie_file_var := by
    intro hcon; exact h2 (by rw [hcon]; simp [freeStrings])
  have hnc4 : "--cookies-from-browser" ≠ env.COOKIE_FILE := by
    intro hcon; exact h2 (by rw [hcon]; simp [freeStrings])
  have hnc5 : "--cookies" ≠ cookieBrowser r := by
    intro hcon; exact h1 (by rw [hcon]; simp [freeStrings])
  have hnc6 : "--cookies-from-browser" ≠ cookieBrowser r := by
    intro hcon; exact h2 (by rw [hcon]; simp [freeStrings])
  constructor
  · intro huse
    have hcts := count_build_eq_cookie env r "--cookies" (by decide)
      (not_mem_formatOpts (by decide) h1) (not_mem_thumbOpts_of (by decide)) h1
    have hctb := count_build_eq_cookie env r "--cookies-from-browser" (by decide)
      (not_mem_formatOpts (by decide) h2) (not_mem_thumbOpts_of (by decide)) h2
    refine ⟨?_, fun hf => ?_, fun hf hd => ?_, fun hf hd => ?_, fun hb => ?_⟩
    · rw [hcts, hctb]
      by_cases hf : pyStrip r.cookie_file_var = ""
      · by_cases hd : env.cookie_file_on_disk = true
        · have hck : cookieOpts env r = ["--cookies", env.COOKIE_FILE] := by
            simp [cookieOpts, huse, hf, hd]
          rw [hck]
          simp [List.count_cons, hnc2, hnc4]
        · have hck : cookieOpts env r = ["--cookies-from-browser", cookieBrowser r] := by
            simp [cookieOpts, huse, hf, hd]
          rw [hck]
          simp [List.count_cons, hnc5, hnc6]
      · have hck : cookieOpts env r = ["--cookies", pyStrip r.cookie_file_var] := by
          simp [cookieOpts, huse, hf]
        rw [hck]
        simp [List.count_cons, hnc1, hnc3]
    · have hck : cookieOpts env r = ["--cookies", pyStrip r.cookie_file_var] := by
        simp [cookieOpts, huse, hf]
      refine ⟨["yt-dlp", "-o", out_tpl env r] ++ overwriteOpts r ++ metadataOpts r ++
        uaOpts r ++ formatOpts r, playlistOpts r ++ thumbOpts env r ++ urlOpts r, ?_⟩
      rw [build_parts_cookie, hck]
    · have hck : cookieOpts env r = ["--cookies", env.COOKIE_FILE] := by
        simp [cookieOpts, huse, hf, hd]
      refine ⟨["yt-dlp", "-o", out_tpl env r] ++ overwriteOpts r ++ metadataOpts r ++
        uaOpts r ++ formatOpts r, playlistOpts r ++ thumbOpts env r ++ urlOpts r, ?_⟩
      rw [build_parts_cookie, hck]
    · have hck : cookieOpts env r = ["--cookies-from-browser", cookieBrowser r] := by
        simp [cookieOpts, huse, hf, hd]
      refine ⟨["yt-dlp", "-o", out_tpl env r] ++ overwriteOpts r ++ metadataOpts r ++
        uaOpts r ++ formatOpts r, playlistOpts r ++ thumbOpts env r ++ urlOpts r, ?_⟩
      rw [build_parts_cookie, hck]
    · simp [cookieBrowser, hb]
  · intro huse
    have hck : cookieOpts env r = [] := by simp [cookieOpts, huse]
    exact ⟨not_mem_build (by decide) h1 (not_mem_formatOpts (by decide) h1)
        (by rw [hck]; exact List.not_mem_nil _) (not_mem_thumbOpts_of (by decide)),
      not_mem_build (by decide) h2 (not_mem_formatOpts (by decide) h2)
        (by rw [hck]; exact List.not_mem_nil _) (not_mem_thumbOpts_of (by decide))⟩

theorem build_cookie_directive_witness :
    ((build_command_for_url envW { rBase with use_cookies_var := true }).count "--cookies" +
      (build_command_for_url envW
        { rBase with use_cookies_var := true }).count "--cookies-from-browser" = 1) ∧
    (∃ u v, build_command_for_url envW { rBase with use_cookies_var := true } =
      u ++ ["--cookies-from-browser",
        cookieBrowser { rBase with use_cookies_var := true }] ++ v) :=
  ⟨((build_cookie_directive envW { rBase with use_cookies_var := true }
      (by decide) (by decide)).1 rfl).1,
   ((build_cookie_directive envW { rBase with use_cookies_var := true }
      (by decide) (by decide)).1 rfl).2.2.2.1 (by decide) rfl⟩

theorem safe_rename_compat_witness :
    safe_rename_media fsNoProbe "video.mp4" "m4a" =
      (renameTarget "video.mp4" "m4a",
       [FSAction.rename "video.mp4" (renameTarget "video.mp4" "m4a")]) :=
  (((safe_rename_compat fsNoProbe "video.mp4" "m4a" (by decide) (by decide)
      (Or.inl (by decide))).2 (by decide)).1 ["m4a", "mp4"] (by decide) (by decide)).2
    (by decide) (by decide)

/-! ## Lemmas about the percent matcher -/

theorem startsPercent_iff {l : List Char} : startsPercent l = true ↔ ∃ t, l = '%' :: t := by
  cases l with
  | nil => simp [startsPercent]
  | cons c t =>
    constructor
    · intro h
      unfold startsPercent at h
      split at h
      · rename_i heq
        injection heq with h1 _
        exact ⟨t, by rw [h1]⟩
      · simp at h
    · rintro ⟨t2, ht⟩
      injection ht with h1 h2
      subst h1
      rfl

theorem takeWhile_all_eq_self {p : Char → Bool} {l : List Char}
    (h : ∀ c ∈ l, p c = true) : l.takeWhile p = l := by
  induction l with
  | nil => rfl
  | cons c t ih =>
    rw [List.takeWhile_cons, h c (by simp)]
    simp [ih fun x hx => h x (by simp [hx])]

theorem takeWhile_append_stop {p : Char → Bool} {ds : List Char}
    (hds : ∀ c ∈ ds, p c = true) {c : Char} (hc : p c = false) (xs : List Char) :
    (ds ++ c :: xs).takeWhile p = ds ∧ (ds ++ c :: xs).dropWhile p = c :: xs := by
  induction ds with
  | nil => simp [List.takeWhile_cons, List.dropWhile_cons, hc]
  | cons d t ih =>
    have hd : p d = true := hds d (by simp)
    have iht := ih fun x hx => hds x (by simp [hx])
    simp only [List.cons_append, List.takeWhile_cons, List.dropWhile_cons, hd]
    exact ⟨by simp [iht.1], by simp [iht.2]⟩

theorem digits_prefix_unique {ds rest ds2 rest2 : List Char}
    (h : ds ++ rest = ds2 ++ rest2)
    (hds : ∀ c ∈ ds, isDigitCh c = true) (hds2 : ∀ c ∈ ds2, isDigitCh c = true)
    (hr : ∀ c r, rest = c :: r → isDigitCh c = false)
    (hr2 : ∀ c r, rest2 = c :: r → isDigitCh c = false) :
    ds = ds2 ∧ rest = rest2 := by
  induction ds generalizing ds2 with
  | nil =>
    cases ds2 with
    | nil => exact ⟨rfl, h⟩
    | cons d2 t2 =>
      exfalso
      simp only [List.nil_append, List.cons_append] at h
      have := hr d2 (t2 ++ rest2) h
      have := hds2 d2 (by simp)
      simp_all
  | cons d t ih =>
    cases ds2 with
    | nil =>
      exfalso
      simp only [List.nil_append, List.cons_append] at h
      have := hr2 d (t ++ rest) h.symm
      have := hds d (by simp)
      simp_all
    | cons d2 t2 =>
      simp only [List.cons_append, List.cons.injEq] at h
      obtain ⟨h1, h2⟩ := h
      obtain ⟨h3, h4⟩ := ih h2 (fun x hx => hds x (by simp [hx]))
        (fun x hx => hds2 x (by simp [hx]))
      exact ⟨by rw [h1, h3], h4⟩

theorem matchHere_unique {cs : List Char} {v w : ℚ}
    (hv : MatchHere cs v) (hw : MatchHere cs w) : v = w := by
  obtain ⟨ds, rest, hcs, hne, hlen, hdig, hca⟩ := hv
  obtain ⟨ds2, rest2, hcs2, hne2, hlen2, hdig2, hca2⟩ := hw
  have hstop : ∀ c r, rest = c :: r → isDigitCh c = false := by
    intro c r hrc
    rcases hca with ⟨r2, hr2, _⟩ | ⟨fs, r2, hr2, _, _, _⟩ <;>
      (rw [hr2] at hrc; injection hrc with h1 _; rw [← h1]; decide)
  have hstop2 : ∀ c r, rest2 = c :: r → isDigitCh c = false := by
    intro c r hrc
    rcases hca2 with ⟨r2, hr2, _⟩ | ⟨fs, r2, hr2, _, _, _⟩ <;>
      (rw [hr2] at hrc; injection hrc with h1 _; rw [← h1]; decide)
  obtain ⟨hdseq, hresteq⟩ := digits_prefix_unique (by rw [← hcs, ← hcs2]) hdig hdig2 hstop hstop2
  subst hdseq
  subst hresteq
  rcases hca with ⟨r2, hr2, hv⟩ | ⟨fs, r2, hr2, hfne, hfdig, hv⟩ <;>
    rcases hca2 with ⟨r2b, hr2b, hw⟩ | ⟨fsb, r2b, hr2b, hfneb, hfdigb, hw⟩
  · rw [hv, hw]
  · rw [hr2] at hr2b
    injection hr2b with h1 _
    exact absurd h1 (by decide)
  · rw [hr2] at hr2b
    injection hr2b with h1 _
    exact absurd h1 (by decide)
  · rw [hr2] at hr2b
    injection hr2b with _ h2
    have hstopf : ∀ c r, ('%' :: r2 : List Char) = c :: r → isDigitCh c = false := by
      intro c r hrc
      injection hrc with h1 _
      rw [← h1]
      decide
    have hstopfb : ∀ c r, ('%' :: r2b : List Char) = c :: r → isDigitCh c = false := by
      intro c r hrc
      injection hrc with h1 _
      rw [← h1]
      decide
    obtain ⟨hfeq, _⟩ := digits_prefix_unique h2 hfdig hfdigb hstopf hstopfb
    rw [hv, hw, hfeq]

theorem fracTry_sound {ds fs after : List Char} {k : Nat} {g : List Char}
    (h : fracTry ds fs after k = some g) :
    ∃ k2, 1 ≤ k2 ∧ k2 ≤ k ∧ startsPercent (fs.drop k2 ++ after) = true ∧
      g = ds ++ '.' :: fs.take k2 := by
  induction k with
  | zero => exact absurd h (by simp [fracTry])
  | succ k ih =>
    unfold fracTry at h
    split at h
    · injection h with h1
      exact ⟨k + 1, by omega, le_refl _, by assumption, h1.symm⟩
    · obtain ⟨k2, h1, h2, h3, h4⟩ := ih h
      exact ⟨k2, h1, by omega, h3, h4⟩

theorem fracTry_complete (ds : List Char) {fs after : List Char} {k2 k : Nat}
    (h1 : 1 ≤ k2) (h2 : k2 ≤ k) (hsp : startsPercent (fs.drop k2 ++ after) = true) :
    ∃ g, fracTry ds fs after k = some g := by
  induction k with
  | zero => omega
  | succ k ih =>
    unfold fracTry
    split
    · exact ⟨_, rfl⟩
    · rename_i hnot
      rcases Nat.lt_or_ge k2 (k + 1) with hlt | hge
      · exact ih (by omega)
      · exfalso
        have : k2 = k + 1 := by omega
        rw [this] at hsp
        simp_all

theorem tailTry_sound {ds rest g : List Char} (h : tailTry ds rest = some g) :
    (∃ r2, rest = '%' :: r2 ∧ g = ds) ∨
    (∃ fs2 r2, rest = '.' :: (fs2 ++ '%' :: r2) ∧ fs2 ≠ [] ∧
      (∀ c ∈ fs2, isDigitCh c = true) ∧ g = ds ++ '.' :: fs2) := by
  unfold tailTry at h
  split at h
  next g2 hinner =>
    injection h with h1
    subst h1
    split at hinner
    next rr =>
      obtain ⟨k2, hk1, hk2, hsp, hg⟩ := fracTry_sound hinner
      obtain ⟨t, ht⟩ := startsPercent_iff.1 hsp
      refine Or.inr ⟨(rr.takeWhile isDigitCh).take k2, t, ?_, ?_, ?_, hg⟩
      · congr 1
        calc rr = rr.takeWhile isDigitCh ++ rr.dropWhile isDigitCh :=
              (List.takeWhile_append_dropWhile isDigitCh rr).symm
          _ = (rr.takeWhile isDigitCh).take k2 ++
              ((rr.takeWhile isDigitCh).drop k2 ++ rr.dropWhile isDigitCh) := by
              rw [← List.append_assoc, List.take_append_drop]
          _ = (rr.takeWhile isDigitCh).take k2 ++ ('%' :: t) := by rw [ht]
      · intro hcon
        have h0 : ((rr.takeWhile isDigitCh).take k2).length = 0 := by rw [hcon]; rfl
        rw [List.length_take] at h0
        have hmin : min k2 (rr.takeWhile isDigitCh).length = k2 := Nat.min_eq_left hk2
        omega
      · intro c hc
        exact List.mem_takeWhile_imp (List.take_subset _ _ hc)
    next => exact absurd hinner (by simp)
  next hinner =>
    split at h
    next hsp =>
      injection h with h1
      subst h1
      obtain ⟨t, ht⟩ := startsPercent_iff.1 hsp
      exact Or.inl ⟨t, ht, rfl⟩
    next => exact absurd h (by simp)

theorem tailTry_dot (ds r2 : List Char) :
    tailTry ds ('.' :: r2) =
      match fracTry ds (r2.takeWhile isDigitCh) (r2.dropWhile isDigitCh)
          (r2.takeWhile isDigitCh).length with
      | some g => some g
      | none => if startsPercent ('.' :: r2) then some ds else none := rfl

theorem tailTry_complete_pct (ds r2 : List Char) :
    ∃ g, tailTry ds ('%' :: r2) = some g := ⟨ds, rfl⟩

theorem tailTry_complete_frac (ds fs2 r2 : List Char) (hne : fs2 ≠ [])
    (hdig : ∀ c ∈ fs2, isDigitCh c = true) :
    ∃ g, tailTry ds ('.' :: (fs2 ++ '%' :: r2)) = some g := by
  have hstop := takeWhile_append_stop hdig (by decide : isDigitCh '%' = false) r2
  have hsp : startsPercent (fs2.drop fs2.length ++ ('%' :: r2)) = true := by
    rw [List.drop_length]
    rfl
  have hk1 : 1 ≤ fs2.length := by
    cases fs2 with
    | nil => exact absurd rfl hne
    | cons a t => simp
  obtain ⟨g, hg⟩ := fracTry_complete ds hk1 (le_refl _) hsp
  refine ⟨g, ?_⟩
  rw [tailTry_dot, hstop.1, hstop.2, hg]

theorem takeWhile_length_le {p : Char → Bool} (l : List Char) :
    (l.takeWhile p).length ≤ l.length := by
  induction l with
  | nil => simp
  | cons a t ih =>
    rw [List.takeWhile_cons]
    split
    · simp only [List.length_cons]
      omega
    · simp

theorem take_all_of_le_takeWhile {p : Char → Bool} {l : List Char} {n : Nat}
    (h : n ≤ (l.takeWhile p).length) : ∀ c ∈ l.take n, p c = true := by
  induction l generalizing n with
  | nil => simp
  | cons a t ih =>
    cases n with
    | zero => simp
    | succ m =>
      by_cases hp : p a = true
      · intro c hc
        rw [List.take_succ_cons] at hc
        rcases List.mem_cons.1 hc with hc | hc
        · rw [hc]; exact hp
        · rw [List.takeWhile_cons, if_pos hp] at h
          simp only [List.length_cons] at h
          exact ih (by omega) c hc
      · rw [List.takeWhile_cons, if_neg hp] at h
        simp at h

theorem dTry_sound {cs : List Char} {d : Nat} {g : List Char}
    (hrun : d ≤ (cs.takeWhile isDigitCh).length) (hd3 : d ≤ 3)
    (h : dTry cs d = some g) : MatchHere cs (groupValue g) := by
  induction d with
  | zero => exact absurd h (by simp [dTry])
  | succ d ih =>
    unfold dTry at h
    split at h
    next g2 htail =>
      injection h with h1
      subst h1
      have hdig : ∀ c ∈ cs.take (d + 1), isDigitCh c = true :=
        take_all_of_le_takeWhile hrun
      have hlen : d + 1 ≤ cs.length :=
        le_trans hrun (takeWhile_length_le _)
      have hdslen : (cs.take (d + 1)).length = d + 1 := by
        rw [List.length_take]
        exact Nat.min_eq_left hlen
      rcases tailTry_sound htail with ⟨r2, hr2, hgds⟩ | ⟨fs2, r2, hr2, hfne, hfdig, hgds⟩
      · subst hgds
        have hgv : groupValue (cs.take (d + 1)) = (digitsToNat (cs.take (d + 1)) : ℚ) := by
          unfold groupValue
          rw [takeWhile_all_eq_self hdig, List.drop_length]
        refine ⟨cs.take (d + 1), cs.drop (d + 1), (List.take_append_drop _ _).symm,
          ?_, by rw [hdslen]; omega, hdig, Or.inl ⟨r2, hr2, hgv⟩⟩
        intro hcon
        rw [hcon] at hdslen
        simp at hdslen
      · subst hgds
        have hgv : groupValue (cs.take (d + 1) ++ '.' :: fs2) =
            (digitsToNat (cs.take (d + 1)) : ℚ) +
              (digitsToNat fs2 : ℚ) / (10 : ℚ) ^ fs2.length := by
          unfold groupValue
          rw [(takeWhile_append_stop hdig (by decide) fs2).1, List.drop_left]
          rfl
        refine ⟨cs.take (d + 1), cs.drop (d + 1), (List.take_append_drop _ _).symm,
          ?_, by rw [hdslen]; omega, hdig, Or.inr ⟨fs2, r2, hr2, hfne, hfdig, hgv⟩⟩
        intro hcon
        rw [hcon] at hdslen
        simp at hdslen
    next =>
      exact ih (by omega) (by omega) h

theorem tryMatchHere_sound {cs g : List Char} (h : tryMatchHere cs = some g) :
    MatchHere cs (groupValue g) := by
  unfold tryMatchHere at h
  exact dTry_sound (Nat.min_le_right _ _) (Nat.min_le_left _ _) h

theorem tryMatchHere_complete {cs : List Char} {v : ℚ} (h : MatchHere cs v) :
    ∃ g, tryMatchHere cs = some g := by
  obtain ⟨ds, rest, hcs, hne, hlen, hdig, hca⟩ := h
  subst hcs
  obtain ⟨c, xs, hrest, hc⟩ :
      ∃ c xs, rest = c :: xs ∧ isDigitCh c = false := by
    rcases hca with ⟨r2, hr2, _⟩ | ⟨fs, r2, hr2, _, _, _⟩
    · exact ⟨'%', r2, hr2, by decide⟩
    · exact ⟨'.', fs ++ '%' :: r2, hr2, by decide⟩
  have htw : (ds ++ rest).takeWhile isDigitCh = ds := by
    rw [hrest]
    exact (takeWhile_append_stop hdig hc xs).1
  obtain ⟨d0, hd0⟩ : ∃ d0, ds.length = d0 + 1 := by
    cases ds with
    | nil => exact absurd rfl hne
    | cons a t => exact ⟨t.length, rfl⟩
  have hmin : min 3 ((ds ++ rest).takeWhile isDigitCh).length = ds.length := by
    rw [htw]
    exact Nat.min_eq_right hlen
  have htake : (ds ++ rest).take ds.length = ds := List.take_left ds rest
  have hdrop : (ds ++ rest).drop ds.length = rest := List.drop_left ds rest
  obtain ⟨g, hg⟩ : ∃ g, tailTry ds rest = some g := by
    rcases hca with ⟨r2, hr2, _⟩ | ⟨fs, r2, hr2, hfne, hfdig, _⟩
    · rw [hr2]; exact tailTry_complete_pct ds r2
    · rw [hr2]; exact tailTry_complete_frac ds fs r2 hfne hfdig
  refine ⟨g, ?_⟩
  unfold tryMatchHere
  rw [hmin, hd0]
  simp only [dTry]
  rw [← hd0, htake, hdrop, hg]

theorem searchGroup_some_iff {cs g : List Char} :
    searchGroup cs = some g ↔
      ∃ i, tryMatchHere (cs.drop i) = some g ∧
        ∀ j, j < i → tryMatchHere (cs.drop j) = none := by
  induction cs with
  | nil =>
    constructor
    · intro h; simp [searchGroup] at h
    · rintro ⟨i, hi, _⟩
      rw [List.drop_nil] at hi
      simp [tryMatchHere, dTry] at hi
  | cons c t ih =>
    cases h0 : tryMatchHere (c :: t) with
    | some g0 =>
      have hs : searchGroup (c :: t) = some g0 := by
        show (match tryMatchHere (c :: t) with
              | some g => some g
              | none => searchGroup t) = some g0
        rw [h0]
      constructor
      · intro h
        rw [hs] at h
        injection h with h1
        subst h1
        exact ⟨0, by simpa using h0, fun j hj => absurd hj (by omega)⟩
      · rintro ⟨i, hi, hmin⟩
        cases i with
        | zero =>
          rw [List.drop_zero] at hi
          exact hs.trans (h0.symm.trans hi)
        | succ i2 =>
          have h1 := hmin 0 (by omega)
          rw [List.drop_zero, h0] at h1
          exact absurd h1 (by simp)
    | none =>
      have hs : searchGroup (c :: t) = searchGroup t := by
        show (match tryMatchHere (c :: t) with
              | some g => some g
              | none => searchGroup t) = searchGroup t
        rw [h0]
      rw [hs, ih]
      constructor
      · rintro ⟨i, hi, hmin⟩
        refine ⟨i + 1, by simpa using hi, ?_⟩
        intro j hj
        cases j with
        | zero => simpa using h0
        | succ j2 => simpa using hmin j2 (by omega)
      · rintro ⟨i, hi, hmin⟩
        cases i with
        | zero =>
          rw [List.drop_zero, h0] at hi
          exact absurd hi (by simp)
        | succ i2 =>
          refine ⟨i2, by simpa using hi, fun j hj => ?_⟩
          have h1 := hmin (j + 1) (by omega)
          simpa using h1

theorem searchGroup_none_iff {cs : List Char} :
    searchGroup cs = none ↔ ∀ i, tryMatchHere (cs.drop i) = none := by
  induction cs with
  | nil =>
    constructor
    · intro _ i
      rw [List.drop_nil]
      simp [tryMatchHere, dTry]
    · intro _
      rfl
  | cons c t ih =>
    cases h0 : tryMatchHere (c :: t) with
    | some g0 =>
      have hs : searchGroup (c :: t) = some g0 := by
        show (match tryMatchHere (c :: t) with
              | some g => some g
              | none => searchGroup t) = some g0
        rw [h0]
      constructor
      · intro h
        rw [hs] at h
        exact absurd h (by simp)
      · intro h
        have h1 := h 0
        rw [List.drop_zero, h0] at h1
        exact absurd h1 (by simp)
    | none =>
      have hs : searchGroup (c :: t) = searchGroup t := by
        show (match tryMatchHere (c :: t) with
              | some g => some g
              | none => searchGroup t) = searchGroup t
        rw [h0]
      rw [hs, ih]
      constructor
      · intro h i
        cases i with
        | zero => simpa using h0
        | succ i2 => simpa using h i2
      · intro h i
        have h1 := h (i + 1)
        simpa using h1

theorem isDigitCh_val {c : Char} (h : isDigitCh c = true) :
    48 ≤ c.toNat ∧ c.toNat ≤ 57 := by
  unfold isDigitCh at h
  simp only [Bool.and_eq_true, decide_eq_true_eq] at h
  exact h

theorem digits_foldl_lt (ds : List Char) (h : ∀ c ∈ ds, isDigitCh c = true) :
    ∀ a : Nat, ds.foldl (fun a c => 10 * a + (c.toNat - 48)) a < (a + 1) * 10 ^ ds.length := by
  induction ds with
  | nil => intro a; simp
  | cons c t ih =>
    intro a
    have hc := isDigitCh_val (h c (by simp))
    have iht := ih (fun x hx => h x (by simp [hx])) (10 * a + (c.toNat - 48))
    simp only [List.foldl_cons, List.length_cons]
    refine lt_of_lt_of_le iht ?_
    calc (10 * a + (c.toNat - 48) + 1) * 10 ^ t.length
        ≤ ((a + 1) * 10) * 10 ^ t.length := Nat.mul_le_mul_right _ (by omega)
      _ = (a + 1) * 10 ^ (t.length + 1) := by ring

theorem digitsToNat_lt (ds : List Char) (h : ∀ c ∈ ds, isDigitCh c = true) :
    digitsToNat ds < 10 ^ ds.length := by
  have h1 := digits_foldl_lt ds h 0
  simpa [digitsToNat] using h1

theorem matchHere_bounds {cs : List Char} {v : ℚ} (h : MatchHere cs v) :
    0 ≤ v ∧ v < 1000 := by
  obtain ⟨ds, rest, _, hne, hlen, hdig, hca⟩ := h
  have h999 : (digitsToNat ds : ℚ) ≤ 999 := by
    have h1 : digitsToNat ds < 10 ^ ds.length := digitsToNat_lt ds hdig
    have h2 : (10 : Nat) ^ ds.length ≤ 1000 :=
      le_trans (Nat.pow_le_pow_right (by omega) hlen) (by norm_num)
    have h3 : digitsToNat ds ≤ 999 := by omega
    exact_mod_cast h3
  have hint0 : (0 : ℚ) ≤ (digitsToNat ds : ℚ) := Nat.cast_nonneg _
  rcases hca with ⟨r2, hr2, hv⟩ | ⟨fs, r2, hr2, hfne, hfdig, hv⟩
  · subst hv
    exact ⟨hint0, by linarith⟩
  · subst hv
    have hfs : (digitsToNat fs : ℚ) / (10 : ℚ) ^ fs.length < 1 := by
      rw [div_lt_one (by positivity)]
      exact_mod_cast digitsToNat_lt fs hfdig
    have hfs0 : (0 : ℚ) ≤ (digitsToNat fs : ℚ) / (10 : ℚ) ^ fs.length := by positivity
    exact ⟨by linarith, by linarith⟩

/-- CLAIM C9: `extract_percent` returns the numeric value of the leftmost run
of one to three digits, with optional decimal part, immediately preceding a
`%` character, and returns none exactly when the line contains no such
pattern. -/
theorem extract_percent_spec (line : String) :
    (∀ v : ℚ, extract_percent line = some v ↔
      ∃ i, MatchAt line.data i v ∧ ∀ j w, MatchAt line.data j w → i ≤ j) ∧
    (extract_percent line = none ↔ ∀ i v, ¬ MatchAt line.data i v) := by
  constructor
  · intro v
    constructor
    · intro h
      unfold extract_percent at h
      obtain ⟨g, hg, hv⟩ := Option.map_eq_some'.1 h
      obtain ⟨i, hi, hmin⟩ := searchGroup_some_iff.1 hg
      subst hv
      refine ⟨i, tryMatchHere_sound hi, ?_⟩
      intro j w hw
      by_contra hlt
      push_neg at hlt
      obtain ⟨g2, hg2⟩ := tryMatchHere_complete hw
      rw [hmin j hlt] at hg2
      exact absurd hg2 (by simp)
    · rintro ⟨i, hAt, hleast⟩
      obtain ⟨g0, hg0⟩ : ∃ g0, searchGroup line.data = some g0 := by
        cases hsg : searchGroup line.data with
        | some g0 => exact ⟨g0, rfl⟩
        | none =>
          obtain ⟨g, hg⟩ := tryMatchHere_complete hAt
          rw [searchGroup_none_iff.1 hsg i] at hg
          exact absurd hg (by simp)
      obtain ⟨i0, hi0, hmin0⟩ := searchGroup_some_iff.1 hg0
      have hAt0 : MatchAt line.data i0 (groupValue g0) := tryMatchHere_sound hi0
      have hle1 : i ≤ i0 := hleast i0 _ hAt0
      have hle2 : i0 ≤ i := by
        by_contra hlt
        push_neg at hlt
        obtain ⟨g, hg⟩ := tryMatchHere_complete hAt
        rw [hmin0 i hlt] at hg
        exact absurd hg (by simp)
      have hieq : i0 = i := by omega
      subst hieq
      have hveq : v = groupValue g0 := matchHere_unique hAt hAt0
      unfold extract_percent
      rw [hg0, Option.map_some', hveq]
  · constructor
    · intro h i v hAt
      unfold extract_percent at h
      have hn : searchGroup line.data = none := Option.map_eq_none'.1 h
      obtain ⟨g, hg⟩ := tryMatchHere_complete hAt
      rw [searchGroup_none_iff.1 hn i] at hg
      exact absurd hg (by simp)
    · intro h
      unfold extract_percent
      rw [Option.map_eq_none', searchGroup_none_iff]
      intro i
      cases hg : tryMatchHere (line.data.drop i) with
      | none => rfl
      | some g =>
        exact absurd (tryMatchHere_sound hg) (h i (groupValue g))

/-! ## Lemmas about the binary64 rounding -/

theorem bitLenF_zero (f : ℕ) : bitLenF f 0 = 0 := by cases f <;> rfl

theorem bitLenF_bounds : ∀ f n : ℕ, n ≤ f → 1 ≤ n →
    2 ^ (bitLenF f n - 1) ≤ n ∧ n < 2 ^ bitLenF f n ∧ 1 ≤ bitLenF f n := by
  intro f
  induction f with
  | zero => intro n h1 h2; omega
  | succ f ih =>
    intro n h1 h2
    unfold bitLenF
    rw [if_neg (by omega)]
    by_cases hn2 : n / 2 = 0
    · have hn1 : n = 1 := by omega
      subst hn1
      rw [show (1 : ℕ) / 2 = 0 from rfl, bitLenF_zero]
      norm_num
    · have hle : n / 2 ≤ f := by omega
      obtain ⟨hlo, hhi, h1b⟩ := ih (n / 2) hle (by omega)
      refine ⟨?_, ?_, by omega⟩
      · rw [Nat.add_sub_cancel]
        have hQP : 2 ^ bitLenF f (n / 2) = 2 * 2 ^ (bitLenF f (n / 2) - 1) := by
          conv_lhs => rw [show bitLenF f (n / 2) = (bitLenF f (n / 2) - 1) + 1 from by omega]
          rw [pow_succ]
          ring
        omega
      · have hQ : 2 ^ (bitLenF f (n / 2) + 1) = 2 * 2 ^ bitLenF f (n / 2) := by
          rw [pow_succ]
          ring
        omega

theorem bitLen_bounds (n : ℕ) (h : 1 ≤ n) :
    2 ^ (bitLen n - 1) ≤ n ∧ n < 2 ^ bitLen n ∧ 1 ≤ bitLen n :=
  bitLenF_bounds n n (le_refl n) h

theorem rat_eq_toNat_div {q : ℚ} (hq : 0 < q) :
    q = (q.num.toNat : ℚ) / (q.den : ℚ) := by
  have hnum : 0 ≤ q.num := le_of_lt (Rat.num_pos.mpr hq)
  have h1 : ((q.num.toNat : ℕ) : ℚ) = ((q.num : ℤ) : ℚ) := by
    exact_mod_cast Int.toNat_of_nonneg hnum
  rw [h1, Rat.num_div_den]

theorem qlog_upper_aux (a b : ℕ) (ha : 1 ≤ a) (hb : 1 ≤ b) :
    (a : ℚ) / (b : ℚ) < (2 : ℚ) ^ ((bitLen a : ℤ) - (bitLen b : ℤ) + 1) := by
  obtain ⟨hA1, hA2, hA3⟩ := bitLen_bounds a ha
  obtain ⟨hB1, hB2, hB3⟩ := bitLen_bounds b hb
  have hb0 : (0 : ℚ) < (b : ℚ) := by exact_mod_cast hb
  rw [div_lt_iff₀ hb0]
  have h1 : (a : ℚ) < (2 : ℚ) ^ (bitLen a : ℤ) := by
    rw [zpow_natCast]
    exact_mod_cast hA2
  have h2 : (2 : ℚ) ^ ((bitLen b : ℤ) - 1) ≤ (b : ℚ) := by
    have hcast : ((bitLen b : ℤ) - 1) = ((bitLen b - 1 : ℕ) : ℤ) := by omega
    rw [hcast, zpow_natCast]
    exact_mod_cast hB1
  calc (a : ℚ) < (2 : ℚ) ^ (bitLen a : ℤ) := h1
    _ = (2 : ℚ) ^ ((bitLen a : ℤ) - (bitLen b : ℤ) + 1) *
        (2 : ℚ) ^ ((bitLen b : ℤ) - 1) := by
        rw [← zpow_add₀ (by norm_num : (2 : ℚ) ≠ 0)]
        congr 1
        ring
    _ ≤ (2 : ℚ) ^ ((bitLen a : ℤ) - (bitLen b : ℤ) + 1) * (b : ℚ) :=
        mul_le_mul_of_nonneg_left h2 (le_of_lt (by positivity))

theorem qlog_lower_aux (a b : ℕ) (ha : 1 ≤ a) (hb : 1 ≤ b) :
    (2 : ℚ) ^ ((bitLen a : ℤ) - (bitLen b : ℤ) - 1) < (a : ℚ) / (b : ℚ) := by
  obtain ⟨hA1, hA2, hA3⟩ := bitLen_bounds a ha
  obtain ⟨hB1, hB2, hB3⟩ := bitLen_bounds b hb
  have hb0 : (0 : ℚ) < (b : ℚ) := by exact_mod_cast hb
  rw [lt_div_iff₀ hb0]
  have h1 : (b : ℚ) < (2 : ℚ) ^ (bitLen b : ℤ) := by
    rw [zpow_natCast]
    exact_mod_cast hB2
  have h2 : (2 : ℚ) ^ ((bitLen a : ℤ) - 1) ≤ (a : ℚ) := by
    have hcast : ((bitLen a : ℤ) - 1) = ((bitLen a - 1 : ℕ) : ℤ) := by omega
    rw [hcast, zpow_natCast]
    exact_mod_cast hA1
  calc (2 : ℚ) ^ ((bitLen a : ℤ) - (bitLen b : ℤ) - 1) * (b : ℚ)
      < (2 : ℚ) ^ ((bitLen a : ℤ) - (bitLen b : ℤ) - 1) *
        (2 : ℚ) ^ (bitLen b : ℤ) := mul_lt_mul_of_pos_left h1 (by positivity)
    _ = (2 : ℚ) ^ ((bitLen a : ℤ) - 1) := by
        rw [← zpow_add₀ (by norm_num : (2 : ℚ) ≠ 0)]
        congr 1
        ring
    _ ≤ (a : ℚ) := h2

theorem qlog_upper {q : ℚ} (hq : 0 < q) :
    q < (2 : ℚ) ^ ((bitLen q.num.toNat : ℤ) - (bitLen q.den : ℤ) + 1) := by
  calc q = (q.num.toNat : ℚ) / (q.den : ℚ) := rat_eq_toNat_div hq
    _ < (2 : ℚ) ^ ((bitLen q.num.toNat : ℤ) - (bitLen q.den : ℤ) + 1) :=
        qlog_upper_aux q.num.toNat q.den
          (by have := Rat.num_pos.mpr hq; omega) q.den_pos

theorem qlog_lower {q : ℚ} (hq : 0 < q) :
    (2 : ℚ) ^ ((bitLen q.num.toNat : ℤ) - (bitLen q.den : ℤ) - 1) < q := by
  calc (2 : ℚ) ^ ((bitLen q.num.toNat : ℤ) - (bitLen q.den : ℤ) - 1)
      < (q.num.toNat : ℚ) / (q.den : ℚ) :=
        qlog_lower_aux q.num.toNat q.den
          (by have := Rat.num_pos.mpr hq; omega) q.den_pos
    _ = q := (rat_eq_toNat_div hq).symm

theorem qFloorLog2_bracket {q : ℚ} (hq : 0 < q) :
    (2 : ℚ) ^ qFloorLog2 q ≤ q ∧ q < (2 : ℚ) ^ (qFloorLog2 q + 1) := by
  unfold qFloorLog2
  split
  next h => exact ⟨h, qlog_upper hq⟩
  next h =>
    push_neg at h
    constructor
    · exact le_of_lt (qlog_lower hq)
    · have he : (bitLen q.num.toNat : ℤ) - (bitLen q.den : ℤ) - 1 + 1 =
          (bitLen q.num.toNat : ℤ) - (bitLen q.den : ℤ) := by ring
      rw [he]
      exact h

theorem zpow_bracket_unique {k1 k2 : ℤ} {q : ℚ}
    (h1a : (2 : ℚ) ^ k1 ≤ q) (h1b : q < (2 : ℚ) ^ (k1 + 1))
    (h2a : (2 : ℚ) ^ k2 ≤ q) (h2b : q < (2 : ℚ) ^ (k2 + 1)) : k1 = k2 := by
  by_contra hne
  rcases lt_or_gt_of_ne hne with h | h
  · have hmono : (2 : ℚ) ^ (k1 + 1) ≤ (2 : ℚ) ^ k2 :=
      zpow_le_zpow_right₀ (by norm_num) (by omega)
    linarith
  · have hmono : (2 : ℚ) ^ (k2 + 1) ≤ (2 : ℚ) ^ k1 :=
      zpow_le_zpow_right₀ (by norm_num) (by omega)
    linarith

theorem qFloorLog2_eq_of_bracket {q : ℚ} {k : ℤ} (hq : 0 < q)
    (h1 : (2 : ℚ) ^ k ≤ q) (h2 : q < (2 : ℚ) ^ (k + 1)) : qFloorLog2 q = k :=
  zpow_bracket_unique (qFloorLog2_bracket hq).1 (qFloorLog2_bracket hq).2 h1 h2

theorem floor_le_rne (x : ℚ) : ⌊x⌋ ≤ rne x := by
  unfold rne
  split_ifs <;> omega

theorem rne_le_ceil (x : ℚ) : rne x ≤ ⌈x⌉ := by
  have hfc := Int.floor_le_ceil x
  have hup : (⌊x⌋ : ℚ) < x → ⌊x⌋ + 1 ≤ ⌈x⌉ := by
    intro hlt
    have := Int.lt_ceil.mpr hlt
    omega
  have hfr := Int.sub_one_lt_floor x
  unfold rne
  split_ifs with h1 h2 h3
  · exact hfc
  · exact hup (by linarith)
  · exact hfc
  · exact hup (by linarith)

theorem rne_eq_of_lt_half {y : ℚ} {K : ℤ} (hfl : ⌊y⌋ = K) (h : y - K < 1 / 2) :
    rne y = K := by
  unfold rne
  rw [hfl, if_pos (by exact_mod_cast h)]

theorem rne_eq_of_half_lt {y : ℚ} {K : ℤ} (hfl : ⌊y⌋ = K) (h : 1 / 2 < y - K) :
    rne y = K + 1 := by
  unfold rne
  rw [hfl, if_neg (by linarith), if_pos (by exact_mod_cast h)]

theorem roundFloat_eq_of_bracket {q : ℚ} {k : ℤ} (hq : 0 < q)
    (hbr1 : (2 : ℚ) ^ k ≤ q) (hbr2 : q < (2 : ℚ) ^ (k + 1)) (hklo : -1022 ≤ k) :
    roundFloat q = (rne (q / (2 : ℚ) ^ (k - 52)) : ℚ) * (2 : ℚ) ^ (k - 52) := by
  unfold roundFloat
  rw [if_neg (not_le.mpr hq), qFloorLog2_eq_of_bracket hq hbr1 hbr2,
    show max (k - 52) (-1074 : ℤ) = k - 52 from by omega]

theorem roundFloat_bounds {x : ℚ} (h0 : 0 ≤ x) (h1 : x < 1000) :
    0 ≤ roundFloat x ∧ roundFloat x ≤ 1000 := by
  unfold roundFloat
  split
  next => norm_num
  next hnpos =>
    push_neg at hnpos
    have hk9 : qFloorLog2 x ≤ 9 := by
      have hb := (qFloorLog2_bracket hnpos).1
      by_contra hgt
      push_neg at hgt
      have hmono : (2 : ℚ) ^ (10 : ℤ) ≤ (2 : ℚ) ^ qFloorLog2 x :=
        zpow_le_zpow_right₀ (by norm_num) (by omega)
      have h1024 : (2 : ℚ) ^ (10 : ℤ) = 1024 := by norm_num
      linarith
    set e := max (qFloorLog2 x - 52) (-1074 : ℤ) with hedef
    have he : e ≤ -43 := by omega
    set m := (-e).toNat with hmdef
    have hem : e = -(m : ℤ) := by omega
    have hpow2m : (2 : ℚ) ^ e = ((2 : ℚ) ^ m)⁻¹ := by
      rw [hem, zpow_neg, zpow_natCast]
    have hpow_pos : (0 : ℚ) < (2 : ℚ) ^ e := by positivity
    have hy0 : (0 : ℚ) ≤ x / (2 : ℚ) ^ e := by positivity
    have hymax : x / (2 : ℚ) ^ e ≤ ((1000 * 2 ^ m : ℤ) : ℚ) := by
      rw [div_le_iff₀ hpow_pos, hpow2m]
      push_cast
      rw [mul_assoc, mul_inv_cancel₀ (by positivity), mul_one]
      linarith
    constructor
    · have hge : (0 : ℤ) ≤ rne (x / (2 : ℚ) ^ e) :=
        le_trans (Int.floor_nonneg.mpr hy0) (floor_le_rne _)
      have hcast : (0 : ℚ) ≤ (rne (x / (2 : ℚ) ^ e) : ℚ) := by exact_mod_cast hge
      exact mul_nonneg hcast (le_of_lt hpow_pos)
    · have h2 : rne (x / (2 : ℚ) ^ e) ≤ 1000 * 2 ^ m :=
        le_trans (rne_le_ceil _) (Int.ceil_le.mpr hymax)
      have h3 : ((rne (x / (2 : ℚ) ^ e) : ℤ) : ℚ) ≤ ((1000 * 2 ^ m : ℤ) : ℚ) := by
        exact_mod_cast h2
      calc (rne (x / (2 : ℚ) ^ e) : ℚ) * (2 : ℚ) ^ e
          ≤ ((1000 * 2 ^ m : ℤ) : ℚ) * (2 : ℚ) ^ e :=
            mul_le_mul_of_nonneg_right h3 (le_of_lt hpow_pos)
        _ = 1000 := by
            rw [hpow2m]
            push_cast
            rw [mul_assoc, mul_inv_cancel₀ (by positivity), mul_one]

theorem groupValue_fix999 :
    groupValue fix999Group = 9999999999999999999 / 10 ^ 16 := by
  have hval : groupValue fix999Group =
      (digitsToNat (['9', '9', '9'] : List Char) : ℚ) +
        (digitsToNat fix999Frac : ℚ) / (10 : ℚ) ^ fix999Frac.length := by
    unfold groupValue
    rw [show fix999Group.takeWhile isDigitCh = (['9', '9', '9'] : List Char) from by decide]
    rw [show fix999Group.drop ((['9', '9', '9'] : List Char).length) =
        ('.' :: fix999Frac : List Char) from by decide]
    rfl
  rw [hval, show digitsToNat (['9', '9', '9'] : List Char) = 999 from by decide,
    show digitsToNat fix999Frac = 9999999999999999 from by decide,
    show fix999Frac.length = 16 from by decide]
  norm_num

theorem roundFloat_fix999 :
    roundFloat ((9999999999999999999 : ℚ) / 10 ^ 16) = 1000 := by
  have hq : (0 : ℚ) < 9999999999999999999 / 10 ^ 16 := by norm_num
  rw [roundFloat_eq_of_bracket hq
    (show (2 : ℚ) ^ (9 : ℤ) ≤ 9999999999999999999 / 10 ^ 16 from by norm_num)
    (show (9999999999999999999 : ℚ) / 10 ^ 16 < (2 : ℚ) ^ ((9 : ℤ) + 1) from by norm_num)
    (by norm_num)]
  have hdiv : (9999999999999999999 : ℚ) / 10 ^ 16 / (2 : ℚ) ^ ((9 : ℤ) - 52) =
      87960930222079999991203906977792 / 10 ^ 16 := by
    rw [show ((9 : ℤ) - 52) = (-43 : ℤ) from by norm_num, zpow_neg, div_eq_mul_inv,
      inv_inv, show ((2 : ℚ) ^ (43 : ℤ)) = 8796093022208 from by norm_num]
    norm_num
  rw [hdiv]
  have hfl : ⌊(87960930222079999991203906977792 : ℚ) / 10 ^ 16⌋ = 8796093022207999 :=
    Int.floor_eq_iff.mpr ⟨by norm_num, by norm_num⟩
  rw [rne_eq_of_half_lt hfl (by norm_num)]
  rw [show ((9 : ℤ) - 52) = (-43 : ℤ) from by norm_num, zpow_neg,
    show ((2 : ℚ) ^ (43 : ℤ)) = 8796093022208 from by norm_num]
  push_cast
  norm_num

theorem roundFloat_500 : roundFloat (500 : ℚ) = 500 := by
  rw [roundFloat_eq_of_bracket (by norm_num)
    (show (2 : ℚ) ^ (8 : ℤ) ≤ 500 from by norm_num)
    (show (500 : ℚ) < (2 : ℚ) ^ ((8 : ℤ) + 1) from by norm_num)
    (by norm_num)]
  have hdiv : (500 : ℚ) / (2 : ℚ) ^ ((8 : ℤ) - 52) = 8796093022208000 := by
    rw [show ((8 : ℤ) - 52) = (-44 : ℤ) from by norm_num, zpow_neg, div_eq_mul_inv,
      inv_inv, show ((2 : ℚ) ^ (44 : ℤ)) = 17592186044416 from by norm_num]
    norm_num
  rw [hdiv]
  have hfl : ⌊(8796093022208000 : ℚ)⌋ = 8796093022208000 :=
    Int.floor_eq_iff.mpr ⟨by norm_num, by norm_num⟩
  rw [rne_eq_of_lt_half hfl (by norm_num)]
  rw [show ((8 : ℤ) - 52) = (-44 : ℤ) from by norm_num, zpow_neg,
    show ((2 : ℚ) ^ (44 : ℤ)) = 17592186044416 from by norm_num]
  push_cast
  norm_num

/-- CLAIM C10 counterexample: the pattern matches the line
`999.9999999999999999%`, and `float` rounds the group to exactly 1000.0, so
the program returns a value outside the claimed half-open interval
`[0, 1000)`. -/
theorem extract_percent_float_upper_counterexample :
    extract_percent_float "999.9999999999999999%" = some 1000 ∧
      ¬ ((1000 : ℚ) < 1000) := by
  constructor
  · have hsearch : searchGroup ("999.9999999999999999%".data) = some fix999Group := by
      decide
    show (searchGroup ("999.9999999999999999%".data)).map
      (fun g => roundFloat (groupValue g)) = some 1000
    rw [hsearch, Option.map_some', groupValue_fix999, roundFloat_fix999]
  · norm_num

/-- CLAIM C10 (amended): `extract_percent` does no range check or clamping —
on `"500%"` it returns 500, strictly greater than 100 — and every value it
returns lies in the closed interval `[0, 1000]`; the upper endpoint is
attained because `float` rounds near-1000 numerals up to exactly 1000.0. -/
theorem extract_percent_float_no_clamp :
    (extract_percent_float "500%" = some 500 ∧ (100 : ℚ) < 500) ∧
    (∀ (line : String) (v : ℚ),
      extract_percent_float line = some v → 0 ≤ v ∧ v ≤ 1000) := by
  constructor
  · constructor
    · have hsearch : searchGroup ("500%".data) = some (['5', '0', '0'] : List Char) := by
        decide
      have hval : groupValue (['5', '0', '0'] : List Char) = 500 := by
        have h1 : groupValue (['5', '0', '0'] : List Char) =
            (digitsToNat (['5', '0', '0'] : List Char) : ℚ) := by
          unfold groupValue
          rw [show ((['5', '0', '0'] : List Char).takeWhile isDigitCh) =
              (['5', '0', '0'] : List Char) from by decide]
          rw [List.drop_length]
        rw [h1, show digitsToNat (['5', '0', '0'] : List Char) = 500 from rfl]
        norm_num
      show (searchGroup ("500%".data)).map (fun g => roundFloat (groupValue g)) = some 500
      rw [hsearch, Option.map_some', hval, roundFloat_500]
    · norm_num
  · intro line v h
    unfold extract_percent_float at h
    obtain ⟨g, hg, hv⟩ := Option.map_eq_some'.1 h
    obtain ⟨i, hi, _⟩ := searchGroup_some_iff.1 hg
    have hb := matchHere_bounds (tryMatchHere_sound hi)
    subst hv
    exact roundFloat_bounds hb.1 hb.2

theorem extract_percent_float_no_clamp_witness :
    (0 : ℚ) ≤ 500 ∧ (500 : ℚ) ≤ 1000 :=
  extract_percent_float_no_clamp.2 "500%" 500 extract_percent_float_no_clamp.1.1

end YtGui
